import Mathlib

/-!
Shallow embedding of src/minimize_html.py (hronek/minimizeHtml) and proofs
about its specified behaviour.  The Python program parses HTML with
BeautifulSoup into a document tree and transforms that tree; the embedding
models the post-parse tree directly (Node / NodeList) and translates each
DOM traversal of the source into a recursive function on that tree.
String-level helpers reimplement the exact Python string operations the
source uses (substring containment, ASCII lowercasing, splitting on
whitespace, stripping, replacing) on character lists so that every
definition is executable by the kernel.
-/

namespace MinimizeHtml

/-- Whitespace test matching the character class Python str.split and
str.strip use: space, tab, newline, carriage return, vertical tab, form feed. -/
def isWsChar (c : Char) : Bool :=
  c == ' ' || c == '\t' || c == '\n' || c == '\r' || c == '\x0b' || c == '\x0c'

/-- Python str.lower restricted to ASCII letters, which is all the source
ever compares after lowercasing. -/
def lowerStr (s : String) : String := String.mk (s.data.map Char.toLower)

/-- Test that the first list is an initial segment of the second. -/
def isPrefixCL : List Char → List Char → Bool
  | [], _ => true
  | _ :: _, [] => false
  | a :: as, b :: bs => a == b && isPrefixCL as bs

/-- Test that the first list occurs contiguously inside the second. -/
def containsCL (n : List Char) : List Char → Bool
  | [] => isPrefixCL n []
  | c :: cs => isPrefixCL n (c :: cs) || containsCL n cs

/-- Substring containment, the semantics of the Python test n in h. -/
def strContains (h n : String) : Bool := containsCL n.data h.data

/-- Prefix test, the semantics of Python str.startswith. -/
def strStarts (s p : String) : Bool := isPrefixCL p.data s.data

/-- Python str.strip with no argument: drop leading and trailing whitespace. -/
def trimStr (s : String) : String :=
  String.mk (((s.data.dropWhile isWsChar).reverse.dropWhile isWsChar).reverse)

/-- Worker for splitWs: cur holds the reversed current token. -/
def splitWsCL : List Char → List Char → List String
  | cur, [] => if cur.isEmpty then [] else [String.mk cur.reverse]
  | cur, c :: cs =>
    if isWsChar c then
      (if cur.isEmpty then [] else [String.mk cur.reverse]) ++ splitWsCL [] cs
    else splitWsCL (c :: cur) cs

/-- Python str.split with no argument: whitespace-delimited tokens, no
empty tokens.  BeautifulSoup splits multi-valued attributes (class, rel)
this way when parsing. -/
def splitWs (s : String) : List String := splitWsCL [] s.data

/-- Join with single spaces, the semantics of " ".join in Python. -/
def joinSp : List String → String
  | [] => ""
  | x :: xs =>
    match xs with
    | [] => x
    | _ :: _ => x ++ " " ++ joinSp xs

/-- Python str.replace on character lists.  Fuel is one unit per scanned
position; a match consumes at least one character when the pattern is
nonempty, so the length of the list is enough fuel. -/
def replaceCL (fuel : Nat) (pat rep : List Char) : List Char → List Char
  | [] => []
  | c :: cs =>
    match fuel with
    | 0 => c :: cs
    | f + 1 =>
      if !pat.isEmpty && isPrefixCL pat (c :: cs) then
        rep ++ replaceCL f pat rep ((c :: cs).drop pat.length)
      else c :: replaceCL f pat rep cs

/-- Python str.replace: replace every nonoverlapping occurrence, left to
right. -/
def strReplace (s pat rep : String) : String :=
  String.mk (replaceCL s.data.length pat.data rep.data s.data)

mutual
/-- Document tree node as BeautifulSoup presents a parsed document: an
element with a tag name, an attribute list and children, a text node, or
a comment node.  The HTML parser the source uses normalizes tag names to
lowercase. -/
inductive Node where
  | elem (name : String) (attrs : List (String × String)) (children : NodeList)
  | text (s : String)
  | comment (s : String)
/-- Sibling sequence of a parsed document. -/
inductive NodeList where
  | nil
  | cons (hd : Node) (tl : NodeList)
end

/-- Build a NodeList from a Lean list. -/
def NodeList.ofList : List Node → NodeList
  | [] => .nil
  | n :: ns => .cons n (NodeList.ofList ns)

/-- Concatenation of sibling sequences. -/
def appendNL : NodeList → NodeList → NodeList
  | .nil, ys => ys
  | .cons x xs, ys => .cons x (appendNL xs ys)

/-- Python dict get on the attribute list of an element. -/
def getA (attrs : List (String × String)) (k : String) : Option String :=
  match attrs with
  | [] => none
  | (k2, v) :: rest => if k2 == k then some v else getA rest k

/-- Tag.has_attr of BeautifulSoup. -/
def hasA (attrs : List (String × String)) (k : String) : Bool := (getA attrs k).isSome

/-- Membership of a tag name in a find_all name list. -/
def nameMem (bad : List String) (n : String) : Bool := bad.any (fun b => n == b)

/-- Attribute list of a node; elements only. -/
def attrsOf : Node → List (String × String)
  | .elem _ attrs _ => attrs
  | _ => []

/-- The string the source builds from a multi-valued attribute such as
class or rel: BeautifulSoup returns the whitespace-split token list and
the source joins it with single spaces and lowercases it. -/
def joinedLower (attrs : List (String × String)) (k : String) : String :=
  lowerStr (joinSp (splitWs ((getA attrs k).getD "")))

/-- Line 206 and line 234: the lowercased space-joined class string. -/
def classJoinedLower (attrs : List (String × String)) : String :=
  joinedLower attrs "class"

/-- Class token list of an element, for CSS class selectors (exact,
case-sensitive token match). -/
def classTokens (attrs : List (String × String)) : List String :=
  splitWs ((getA attrs "class").getD "")

/-- Lowercased style attribute of an element, empty when absent. -/
def styleLower (attrs : List (String × String)) : String :=
  lowerStr ((getA attrs "style").getD "")

example : lowerStr "AbC-Def" = "abc-def" := by rfl
example : strContains "a border-radius:100% b" "border-radius:100%" = true := by rfl
example : strReplace "[x] " "x" " " = "[ ] " := by rfl
example : strReplace "(•) " "•" " " = "( ) " := by rfl
example : trimStr "  Hi " = "Hi" := by rfl
example : splitWs " a  b " = ["a", "b"] := by rfl
example : joinSp ["a", "b"] = "a b" := by rfl
example : joinedLower [("class", "UU-CourseKit  x")] "class" = "uu-coursekit x" := by rfl

/-- Characters of the standard base64 data alphabet. -/
def isB64Data (c : Char) : Bool :=
  ('A' ≤ c && c ≤ 'Z') || ('a' ≤ c && c ≤ 'z') || ('0' ≤ c && c ≤ '9') ||
    c == '+' || c == '/'

/-- Characters the payload group of the data-URI pattern admits. -/
def isB64Payload (c : Char) : Bool := isB64Data c || c == '='

/-- Decoded byte count of CPython binascii.a2b_base64 in non-strict mode,
which is what base64.b64decode(b64, validate=False) runs at line 93: a
data character advances the quad position, emitting one byte at positions
two, three and zero; a pad character with quad position at least two ends
decoding successfully once the quad is completed by enough pads; other
pad characters are ignored; any other character is discarded; a partial
quad left at the end of input is an error (none). -/
def b64Go : List Char → Nat → Nat → Nat → Option Nat
  | [], qp, _, bytes => if qp == 0 then some bytes else none
  | c :: cs, qp, pads, bytes =>
    if c == '=' then
      if 2 ≤ qp then
        if qp + pads + 1 == 4 then some bytes else b64Go cs qp (pads + 1) bytes
      else b64Go cs qp pads bytes
    else if isB64Data c then
      if qp == 0 then b64Go cs 1 0 bytes else b64Go cs ((qp + 1) % 4) 0 (bytes + 1)
    else b64Go cs qp pads bytes

/-- Byte length of the successful decode of a payload, none on error. -/
def b64DecodedLen (p : String) : Option Nat := b64Go p.data 0 0 0

/-- Contribution of one matched payload to data_uri_bytes (lines 90 to 96):
the decoded byte length, or int(len(b64) * 0.75) when decoding raises;
int(n * 0.75) is floor(3n/4), the product being exact in binary floating
point whenever 3n is representable. -/
def payloadBytes (p : String) : Nat :=
  match b64DecodedLen p with
  | some n => n
  | none => 3 * p.length / 4

/-- One attempt of the pattern data:[^;]+;base64,([A-Za-z0-9+/=]+) at the
head of the list: the mime part is the maximal nonempty run of
non-semicolon characters (the run cannot contain the semicolon the
literal part needs, so no other split can match), then the literal
";base64,", then the maximal nonempty payload run.  Returns the payload
and the remainder after the whole match. -/
def tryDataUri (l : List Char) : Option (String × List Char) :=
  if isPrefixCL "data:".data l then
    let r1 := l.drop 5
    let mime := r1.takeWhile (fun c => !(c == ';'))
    if mime.isEmpty then none
    else
      let r2 := r1.drop mime.length
      if isPrefixCL ";base64,".data r2 then
        let r3 := r2.drop 8
        let payload := r3.takeWhile isB64Payload
        if payload.isEmpty then none
        else some (String.mk payload, r3.drop payload.length)
      else none
  else none

/-- re.finditer of the data-URI pattern: try a match at every position,
left to right, resuming after the end of each match.  Fuel is one unit
per scanned position; a match consumes at least one character. -/
def scanDataUris : Nat → List Char → List String
  | _, [] => []
  | 0, _ :: _ => []
  | fuel + 1, c :: cs =>
    match tryDataUri (c :: cs) with
    | some (payload, rest) => payload :: scanDataUris fuel rest
    | none => scanDataUris fuel cs

/-- All payload groups the pattern matches in a string, in order. -/
def findPayloads (s : String) : List String := scanDataUris s.data.length s.data

/-- Loop body of count_data_uri (lines 86 to 96): fold the payload
contributions into the running nonlocal data_uri_bytes. -/
def countDataUriAcc (s : String) (acc : Nat) : Nat :=
  (findPayloads s).foldl (fun b p => b + payloadBytes p) acc

/-- Total data-URI payload bytes of one string. -/
def strDataUriBytes (s : String) : Nat := ((findPayloads s).map payloadBytes).sum

/-- Line 99: src = img.get(src) or img.get(srcset); a missing or empty
src attribute falls back to srcset, a missing srcset to the empty string. -/
def resolvedSrc (attrs : List (String × String)) : String :=
  let s := (getA attrs "src").getD ""
  if s == "" then (getA attrs "srcset").getD "" else s

mutual
/-- Lines 98 to 102 as a fold in document order over the (bytes, images)
accumulator pair: for every img or source element whose resolved src
starts with data:, one image is counted and the data-URI payload bytes of
the resolved value are added. -/
def imgScanN : Node → Nat × Nat → Nat × Nat
  | .elem n attrs cs, acc =>
    let acc2 :=
      if n == "img" || n == "source" then
        let s := resolvedSrc attrs
        if strStarts s "data:" then (countDataUriAcc s acc.1, acc.2 + 1) else acc
      else acc
    imgScanL cs acc2
  | _, acc => acc
/-- Sibling-sequence part of imgScanN. -/
def imgScanL : NodeList → Nat × Nat → Nat × Nat
  | .nil, acc => acc
  | .cons c rest, acc => imgScanL rest (imgScanN c acc)
end

mutual
/-- Lines 104 to 107 as a fold: every element with a nonempty style
attribute adds the data-URI payload bytes of its value. -/
def styleScanN : Node → Nat → Nat
  | .elem _ attrs cs, acc =>
    let s := (getA attrs "style").getD ""
    styleScanL cs (if s == "" then acc else countDataUriAcc s acc)
  | _, acc => acc
/-- Sibling-sequence part of styleScanN. -/
def styleScanL : NodeList → Nat → Nat
  | .nil, acc => acc
  | .cons c rest, acc => styleScanL rest (styleScanN c acc)
end

/-- data_uri_bytes as analyze_html computes it: the img/source loop runs
first, then the style loop continues on the same accumulator. -/
def dataUriBytesCode (l : NodeList) : Nat := styleScanL l (imgScanL l (0, 0)).1

/-- images_count as analyze_html computes it. -/
def imagesCountCode (l : NodeList) : Nat := (imgScanL l (0, 0)).2

mutual
/-- The values claim C6 says are scanned: the src attribute and the
srcset attribute of every img and source element, unconditionally. -/
def claimSrcValsN : Node → List String
  | .elem n attrs cs =>
    (if n == "img" || n == "source" then
      (match getA attrs "src" with | some s => [s] | none => []) ++
        (match getA attrs "srcset" with | some s => [s] | none => [])
     else []) ++ claimSrcValsL cs
  | _ => []
/-- Sibling-sequence part of claimSrcValsN. -/
def claimSrcValsL : NodeList → List String
  | .nil => []
  | .cons c rest => claimSrcValsN c ++ claimSrcValsL rest
end

mutual
/-- Style attribute values of every element, in document order. -/
def styleValsN : Node → List String
  | .elem _ attrs cs =>
    (match getA attrs "style" with | some s => [s] | none => []) ++ styleValsL cs
  | _ => []
/-- Sibling-sequence part of styleValsN. -/
def styleValsL : NodeList → List String
  | .nil => []
  | .cons c rest => styleValsN c ++ styleValsL rest
end

/-- data_uri_bytes as claim C6 words it: the sum of payload bytes over
all data-URI substrings found in img/source src or srcset attributes and
in every style attribute. -/
def claimDataUriBytes (l : NodeList) : Nat :=
  ((claimSrcValsL l ++ styleValsL l).map strDataUriBytes).sum

mutual
/-- The img/source values the code actually scans: the single resolved
src-or-srcset value, and only when it starts with data: . -/
def qualSrcValsN : Node → List String
  | .elem n attrs cs =>
    (if n == "img" || n == "source" then
      (let s := resolvedSrc attrs
       if strStarts s "data:" then [s] else [])
     else []) ++ qualSrcValsL cs
  | _ => []
/-- Sibling-sequence part of qualSrcValsN. -/
def qualSrcValsL : NodeList → List String
  | .nil => []
  | .cons c rest => qualSrcValsN c ++ qualSrcValsL rest
end

/-- data_uri_bytes as the amended claim words it: only the resolved
src-or-srcset value of an img/source element is scanned, and only when it
starts with data: ; style attributes of all elements are scanned as
before. -/
def amendedDataUriBytes (l : NodeList) : Nat :=
  ((qualSrcValsL l ++ styleValsL l).map strDataUriBytes).sum

/-- images_count as the claim (and the amended claim) word it: the number
of img/source elements whose resolved src-or-srcset starts with data: . -/
def specImagesCount (l : NodeList) : Nat := (qualSrcValsL l).length

example : b64DecodedLen "AAAA" = some 3 := by rfl
example : b64DecodedLen "AAAAA" = none := by rfl
example : b64DecodedLen "AA==" = some 1 := by rfl
example : b64DecodedLen "AAA=" = some 2 := by rfl
example : b64DecodedLen "AA=A" = none := by rfl
example : findPayloads "x data:image/png;base64,AAAA y" = ["AAAA"] := by rfl
example : findPayloads "url(data:a;base64,QQ==) data:b;base64,zz" = ["QQ==", "zz"] := by rfl
example : payloadBytes "AAAAA" = 3 := by rfl

/-- Tag.decompose over find_all with a name list: remove every element
whose name is in the list, subtree included (lines 51 and 52, 153 and
154, 161 and 162, 171 to 173). -/
def stripTagsL (bad : List String) : NodeList → NodeList
  | .nil => .nil
  | .cons (.elem n attrs cs) rest =>
    if nameMem bad n then stripTagsL bad rest
    else .cons (.elem n attrs (stripTagsL bad cs)) (stripTagsL bad rest)
  | .cons x rest => .cons x (stripTagsL bad rest)

mutual
/-- Total UTF-8 bytes of comment nodes (lines 59 and 60). -/
def commentsBytesN : Node → Nat
  | .comment s => s.utf8ByteSize
  | .elem _ _ cs => commentsBytesL cs
  | _ => 0
/-- Sibling-sequence part of commentsBytesN. -/
def commentsBytesL : NodeList → Nat
  | .nil => 0
  | .cons c rest => commentsBytesN c + commentsBytesL rest
end

mutual
/-- Tag.get_text of BeautifulSoup with no separator: the concatenation of
all descendant text nodes, comments excluded. -/
def getTextN : Node → String
  | .text s => s
  | .comment _ => ""
  | .elem _ _ cs => getTextL cs
/-- Sibling-sequence part of getTextN. -/
def getTextL : NodeList → String
  | .nil => ""
  | .cons c rest => getTextN c ++ getTextL rest
end

mutual
/-- Lines 63 to 69: every script element adds the bytes of its text
content plus the bytes of its src attribute when present. -/
def scriptsBytesN : Node → Nat
  | .elem n attrs cs =>
    (if n == "script" then
      (getTextL cs).utf8ByteSize +
        (match getA attrs "src" with | some s => s.utf8ByteSize | none => 0)
     else 0) + scriptsBytesL cs
  | _ => 0
/-- Sibling-sequence part of scriptsBytesN. -/
def scriptsBytesL : NodeList → Nat
  | .nil => 0
  | .cons c rest => scriptsBytesN c + scriptsBytesL rest
end

mutual
/-- Lines 76 to 79: bytes of every element's style attribute value (the
source tests has_attr, so a present empty value adds its zero bytes). -/
def inlineStyleBytesN : Node → Nat
  | .elem _ attrs cs =>
    (match getA attrs "style" with | some s => s.utf8ByteSize | none => 0) +
      inlineStyleBytesL cs
  | _ => 0
/-- Sibling-sequence part of inlineStyleBytesN. -/
def inlineStyleBytesL : NodeList → Nat
  | .nil => 0
  | .cons c rest => inlineStyleBytesN c + inlineStyleBytesL rest
end

mutual
/-- All descendant text node strings in document order, comments excluded. -/
def stringsN : Node → List String
  | .text s => [s]
  | .comment _ => []
  | .elem _ _ cs => stringsL cs
/-- Sibling-sequence part of stringsN. -/
def stringsL : NodeList → List String
  | .nil => []
  | .cons c rest => stringsN c ++ stringsL rest
end

/-- Lines 49 to 53: script and style subtrees are extracted first, then
get_text(" ", strip=True) strips every string, skips the ones that strip
to nothing and joins the rest with single spaces; text_chars is the
character count of the result. -/
def textCharsCode (l : NodeList) : Nat :=
  (joinSp (((stringsL (stripTagsL ["script", "style"] l)).map trimStr).filter
    (fun s => !(s == "")))).length

/-- Lines 155 to 158: the space-joined lowercased rel value contains
stylesheet, preload or preconnect. -/
def badRel (attrs : List (String × String)) : Bool :=
  let rel := joinedLower attrs "rel"
  strContains rel "stylesheet" || strContains rel "preload" ||
    strContains rel "preconnect"

/-- Lines 155 to 158: remove every link element with a matching rel. -/
def stripLinksL : NodeList → NodeList
  | .nil => .nil
  | .cons (.elem n attrs cs) rest =>
    if n == "link" && badRel attrs then stripLinksL rest
    else .cons (.elem n attrs (stripLinksL cs)) (stripLinksL rest)
  | .cons x rest => .cons x (stripLinksL rest)

/-- Line 166: attribute names whose lowercasing starts with on. -/
def isOnAttr (k : String) : Bool := strStarts (lowerStr k) "on"

/-- Lines 164 to 168: delete every inline event handler attribute from
every element. -/
def stripOnL : NodeList → NodeList
  | .nil => .nil
  | .cons (.elem n attrs cs) rest =>
    .cons (.elem n (attrs.filter (fun p => !isOnAttr p.1)) (stripOnL cs))
      (stripOnL rest)
  | .cons x rest => .cons x (stripOnL rest)

/-- Lines 176 to 178: remove every comment node. -/
def stripCommentsL : NodeList → NodeList
  | .nil => .nil
  | .cons (.comment _) rest => stripCommentsL rest
  | .cons (.elem n attrs cs) rest =>
    .cons (.elem n attrs (stripCommentsL cs)) (stripCommentsL rest)
  | .cons x rest => .cons x (stripCommentsL rest)

/-- Line 184: the lowercased type attribute, empty when absent. -/
def typeLower (attrs : List (String × String)) : String :=
  lowerStr ((getA attrs "type").getD "")

/-- Line 186 verbatim: checked is presence of the checked attribute
conjoined with a disjunction of a membership test (the attribute value is
a string, so membership in the Python list reduces to the three string
literals) and a comparison of the value with itself. -/
def checkedCode (attrs : List (String × String)) : Bool :=
  hasA attrs "checked" &&
    (let v := (getA attrs "checked").getD ""
     v == "true" || v == "checked" || v == "" || v == v)

/-- Lines 187 to 190: the marker literal by control type and checked state. -/
def markerA (attrs : List (String × String)) : String :=
  if typeLower attrs == "checkbox" then
    if checkedCode attrs then "[x] " else "[ ] "
  else
    if checkedCode attrs then "(•) " else "( ) "

/-- Lines 183 to 194: every input of type checkbox or radio is replaced
in place by its text marker (insert_before and decompose). -/
def flatAL : NodeList → NodeList
  | .nil => .nil
  | .cons (.elem n attrs cs) rest =>
    if n == "input" && (typeLower attrs == "checkbox" || typeLower attrs == "radio") then
      .cons (.text (markerA attrs)) (flatAL rest)
    else .cons (.elem n attrs (flatAL cs)) (flatAL rest)
  | .cons x rest => .cons x (flatAL rest)

/-- Shape A as claim C2 words it: checked is plain presence of the
checked attribute. -/
def markerASpec (attrs : List (String × String)) : String :=
  if typeLower attrs == "checkbox" then
    if hasA attrs "checked" then "[x] " else "[ ] "
  else
    if hasA attrs "checked" then "(•) " else "( ) "

/-- Shape A flattening as claim C2 words it. -/
def flatASpecL : NodeList → NodeList
  | .nil => .nil
  | .cons (.elem n attrs cs) rest =>
    if n == "input" && (typeLower attrs == "checkbox" || typeLower attrs == "radio") then
      .cons (.text (markerASpec attrs)) (flatASpecL rest)
    else .cons (.elem n attrs (flatASpecL cs)) (flatASpecL rest)
  | .cons x rest => .cons x (flatASpecL rest)

mutual
/-- soupsieve select_one with a class selector: the first element in
document order whose class token list contains the token. -/
def findClassTokN (tok : String) : Node → Option Node
  | .elem n attrs cs =>
    if (classTokens attrs).any (fun t => t == tok) then some (.elem n attrs cs)
    else findClassTokL tok cs
  | _ => none
/-- Sibling-sequence part of findClassTokN. -/
def findClassTokL (tok : String) : NodeList → Option Node
  | .nil => none
  | .cons c rest =>
    match findClassTokN tok c with
    | some x => some x
    | none => findClassTokL tok rest
end

/-- Lines 210 to 215: the inner indicator element of a marker span, tried
selector by selector over the descendants. -/
def selectInner (cs : NodeList) : Option Node :=
  match findClassTokL "fa" cs with
  | some x => some x
  | none =>
    match findClassTokL "uu-coursekit-result-state-background" cs with
    | some x => some x
    | none => findClassTokL "uu-coursekit-wrong-state-background" cs

/-- find_next_sibling("div"): the first following sibling element named
div, skipping every other sibling. -/
def firstDivL : NodeList → Option Node
  | .nil => none
  | .cons (.elem n attrs cs) rest =>
    if n == "div" then some (.elem n attrs cs) else firstDivL rest
  | .cons _ rest => firstDivL rest

mutual
/-- get_text(strip=True) is nonempty: some descendant text node strips to
a nonempty string. -/
def hasVisibleTextN : Node → Bool
  | .text s => !(trimStr s == "")
  | .comment _ => false
  | .elem _ _ cs => hasVisibleTextL cs
/-- Sibling-sequence part of hasVisibleTextN. -/
def hasVisibleTextL : NodeList → Bool
  | .nil => false
  | .cons c rest => hasVisibleTextN c || hasVisibleTextL rest
end

/-- Line 204: the radio-shape test on the marker span's inline style. -/
def radioStyle (attrs : List (String × String)) : Bool :=
  strContains (styleLower attrs) "border-radius: 100%" ||
    strContains (styleLower attrs) "border-radius:100%" ||
    strContains (styleLower attrs) "width: 32px"

/-- Lines 201 to 227: is_checked_marker on the marker span's attributes,
children and following siblings, returning the checked state and the base
marker string. -/
def isCheckedMarker (attrs : List (String × String)) (cs sibs : NodeList) :
    Bool × String :=
  let isRadio := radioStyle attrs
  if strContains (classJoinedLower attrs) "result-state" then
    (true, if isRadio then "(•) " else "[x] ")
  else
    match selectInner cs with
    | some inner =>
      (!(strContains (styleLower (attrsOf inner)) "visibility: hidden"),
        if isRadio then "(•) " else "[x] ")
    | none =>
      match firstDivL sibs with
      | some d =>
        if strContains (styleLower (attrsOf d)) "opacity: 0.6" ||
            strContains (styleLower (attrsOf d)) "opacity:.6" then
          (false, if isRadio then "( ) " else "[ ] ")
        else (false, if isRadio then "( ) " else "[ ] ")
      | none => (false, if isRadio then "( ) " else "[ ] ")

/-- Line 242: the emitted marker text, deriving the unchecked variant by
glyph substitution with str.replace. -/
def markerTextB (attrs : List (String × String)) (cs sibs : NodeList) : String :=
  let r := isCheckedMarker attrs cs sibs
  if r.1 then r.2
  else if strContains r.2 "[" then strReplace r.2 "x" " "
  else strReplace r.2 "•" " "

/-- Lines 234 and 235: candidacy of a span by the vendor class token. -/
def vendorClass (attrs : List (String × String)) : Bool :=
  strContains (classJoinedLower attrs) "uu-coursekit"

/-- Lines 238 to 240: the first following sibling div exists and has
nonempty stripped text. -/
def qualifiesB (sibs : NodeList) : Bool :=
  match firstDivL sibs with
  | some d => hasVisibleTextN d
  | none => false

/-- Prepend pending marker texts, earliest first. -/
def appendMarkers : List String → NodeList → NodeList
  | [], l => l
  | t :: ts, l => .cons (.text t) (appendMarkers ts l)

mutual
/-- Node part of the Shape B pass: elements recurse into their children
with no pending marker. -/
def flatBN : Node → Node
  | .elem n attrs cs => .elem n attrs (flatBL [] cs)
  | x => x
/-- Lines 230 to 246: every span with the vendor class token whose first
following sibling div has text is dropped and its marker text inserted
immediately before that div.  The source inserts into the live tree at
once; the model carries the pending texts along the sibling walk and
releases them when the div (the first div sibling, by candidacy) is
reached, which places them at the same position. -/
def flatBL : List String → NodeList → NodeList
  | _, .nil => .nil
  | pend, .cons c rest =>
    match c with
    | .elem n attrs cs =>
      if n == "div" then
        appendMarkers pend (.cons (.elem n attrs (flatBL [] cs)) (flatBL [] rest))
      else if n == "span" && vendorClass attrs && qualifiesB rest then
        flatBL (pend ++ [markerTextB attrs cs rest]) rest
      else
        .cons (.elem n attrs (flatBL [] cs)) (flatBL pend rest)
    | x => .cons x (flatBL pend rest)
end

/-- Lines 145 to 249: the aggressive strip pipeline on the parsed tree,
in source order.  The final serialize-and-minify step of line 249 works
on whitespace, comments and boolean attribute values only and is modelled
separately on token streams. -/
def stripNontextF (keepImages flattenInputs : Bool) (l : NodeList) : NodeList :=
  let l1 := stripTagsL ["script", "style"] l
  let l2 := stripLinksL l1
  let l3 := stripTagsL ["iframe", "embed", "object"] l2
  let l4 := stripOnL l3
  let l5 := if keepImages then l4 else stripTagsL ["img"] l4
  let l6 := stripCommentsL l5
  if flattenInputs then flatBL [] (flatAL l6) else l6

mutual
/-- No element of the tree has a name satisfying p. -/
def noElemPN (p : String → Bool) : Node → Bool
  | .elem n _ cs => !p n && noElemPL p cs
  | _ => true
/-- Sibling-sequence part of noElemPN. -/
def noElemPL (p : String → Bool) : NodeList → Bool
  | .nil => true
  | .cons c rest => noElemPN p c && noElemPL p rest
end

mutual
/-- No element of the tree carries an attribute whose lowercased name
starts with on. -/
def noOnN : Node → Bool
  | .elem _ attrs cs => attrs.all (fun q => !isOnAttr q.1) && noOnL cs
  | _ => true
/-- Sibling-sequence part of noOnN. -/
def noOnL : NodeList → Bool
  | .nil => true
  | .cons c rest => noOnN c && noOnL rest
end

mutual
/-- No input element of type checkbox or radio is in the tree. -/
def noFlatInputN : Node → Bool
  | .elem n attrs cs =>
    !(n == "input" && (typeLower attrs == "checkbox" || typeLower attrs == "radio")) &&
      noFlatInputL cs
  | _ => true
/-- Sibling-sequence part of noFlatInputN. -/
def noFlatInputL : NodeList → Bool
  | .nil => true
  | .cons c rest => noFlatInputN c && noFlatInputL rest
end

example :
    flatAL (.cons (.elem "input" [("type", "checkbox"), ("checked", "")] .nil) .nil) =
      .cons (.text "[x] ") .nil := by rfl

example :
    flatAL (.cons (.elem "input" [("type", "RADIO")] .nil) .nil) =
      .cons (.text "( ) ") .nil := by rfl

example :
    flatBL []
        (.cons (.elem "span" [("class", "uu-coursekit-result-state")] .nil)
          (.cons (.elem "div" [] (.cons (.text "Answer text") .nil)) .nil)) =
      .cons (.text "[x] ")
        (.cons (.elem "div" [] (.cons (.text "Answer text") .nil)) .nil) := by rfl

example :
    flatBL []
        (.cons (.elem "span" [("class", "uu-coursekit")] .nil)
          (.cons (.elem "p" [] .nil)
            (.cons (.elem "div" [] (.cons (.text "A") .nil)) .nil))) =
      .cons (.elem "p" [] .nil)
        (.cons (.text "[ ] ")
          (.cons (.elem "div" [] (.cons (.text "A") .nil)) .nil)) := by rfl

/-- Token stream of a serialized HTML document, the granularity at which
the minifier works.  Modelled from the spec: the htmlmin minifier the
source calls at lines 110 to 117 and 134 to 142 is a third-party stream
processor that is not part of this repository; section 4.2 of the spec
describes it as collapsing insignificant whitespace, stripping comments,
normalizing boolean attributes and preserving preformatted content. -/
inductive MTok where
  | tagOpen (name : String) (attrs : List (String × Option String))
  | tagClose (name : String)
  | chunk (s : String)
  | rem (s : String)
deriving DecidableEq

/-- Worker for collapseWs; the flag records whether the previous kept
character position was inside a whitespace run. -/
def collapseGo : Bool → List Char → List Char
  | _, [] => []
  | prevWs, c :: cs =>
    if isWsChar c then
      if prevWs then collapseGo true cs else ' ' :: collapseGo true cs
    else c :: collapseGo false cs

/-- Modelled from the spec: collapse every whitespace run to one space. -/
def collapseWs (s : String) : String := String.mk (collapseGo false s.data)

/-- Comment tokens. -/
def isRem : MTok → Bool
  | .rem _ => true
  | _ => false

/-- Modelled from the spec: remove_comments drops every comment token. -/
def dropRems (ts : List MTok) : List MTok := ts.filter (fun t => !isRem t)

/-- Modelled from the spec: the minifier streams text with whitespace
state carried across chunk boundaries, so adjacent text chunks behave as
one chunk; merging them makes that explicit. -/
def mergeChunks : List MTok → List MTok
  | [] => []
  | .chunk a :: rest =>
    match mergeChunks rest with
    | .chunk b :: rest2 => .chunk (a ++ b) :: rest2
    | r => .chunk a :: r
  | t :: rest => t :: mergeChunks rest

/-- Modelled from the spec: whitespace collapse outside pre elements,
tracking the open pre depth (keep_pre). -/
def collapseToks : Nat → List MTok → List MTok
  | _, [] => []
  | d, .tagOpen n a :: ts =>
    .tagOpen n a :: collapseToks (if n == "pre" then d + 1 else d) ts
  | d, .tagClose n :: ts =>
    .tagClose n :: collapseToks (if n == "pre" then d - 1 else d) ts
  | d, .chunk s :: ts =>
    .chunk (if d == 0 then collapseWs s else s) :: collapseToks d ts
  | d, .rem s :: ts => .rem s :: collapseToks d ts

/-- Modelled from the spec: reduce_boolean_attributes turns an attribute
whose value equals its name into a bare attribute. -/
def reduceBoolAttr (p : String × Option String) : String × Option String :=
  match p with
  | (k, some v) => if v == k then (k, none) else (k, some v)
  | (k, none) => (k, none)

/-- Attribute normalization over the token stream. -/
def reduceToks : List MTok → List MTok
  | [] => []
  | .tagOpen n a :: ts => .tagOpen n (a.map reduceBoolAttr) :: reduceToks ts
  | t :: ts => t :: reduceToks ts

/-- Modelled from the spec: minify_only (lines 134 to 142) as a
token-stream transform with remove_comments, remove_empty_space,
reduce_boolean_attributes and keep_pre. -/
def minifyToks (ts : List MTok) : List MTok :=
  reduceToks (collapseToks 0 (mergeChunks (dropRems ts)))

/-- UTF-8 continuation byte. -/
def contByte (b : Nat) : Bool := 128 ≤ b && b ≤ 191

/-- Admissible second byte of a three-byte sequence: shortest form and no
surrogates. -/
def lead3Ok (b0 b1 : Nat) : Bool :=
  if b0 == 224 then 160 ≤ b1 && b1 ≤ 191
  else if b0 == 237 then 128 ≤ b1 && b1 ≤ 159
  else contByte b1

/-- Admissible second byte of a four-byte sequence: shortest form and the
Unicode ceiling. -/
def lead4Ok (b0 b1 : Nat) : Bool :=
  if b0 == 240 then 144 ≤ b1 && b1 ≤ 191
  else if b0 == 244 then 128 ≤ b1 && b1 ≤ 143
  else contByte b1

/-- Python bytes.decode("utf-8", errors="ignore") on a byte list, with one
unit of fuel per byte: a valid (shortest-form, non-surrogate) sequence
decodes to its code point, every other byte is dropped and counted.
Returns the code points and the dropped-byte count. -/
def decodeGo : Nat → List Nat → List Nat × Nat
  | 0, _ => ([], 0)
  | _ + 1, [] => ([], 0)
  | f + 1, b0 :: rest =>
    if b0 < 128 then
      let r := decodeGo f rest
      (b0 :: r.1, r.2)
    else if 194 ≤ b0 && b0 ≤ 223 then
      match rest with
      | b1 :: rest2 =>
        if contByte b1 then
          let r := decodeGo f rest2
          (((b0 - 192) * 64 + (b1 - 128)) :: r.1, r.2)
        else
          let r := decodeGo f rest
          (r.1, r.2 + 1)
      | [] => ([], 1)
    else if 224 ≤ b0 && b0 ≤ 239 then
      match rest with
      | b1 :: b2 :: rest3 =>
        if lead3Ok b0 b1 && contByte b2 then
          let r := decodeGo f rest3
          (((b0 - 224) * 4096 + (b1 - 128) * 64 + (b2 - 128)) :: r.1, r.2)
        else
          let r := decodeGo f rest
          (r.1, r.2 + 1)
      | _ =>
        let r := decodeGo f rest
        (r.1, r.2 + 1)
    else if 240 ≤ b0 && b0 ≤ 244 then
      match rest with
      | b1 :: b2 :: b3 :: rest4 =>
        if lead4Ok b0 b1 && contByte b2 && contByte b3 then
          let r := decodeGo f rest4
          (((b0 - 240) * 262144 + (b1 - 128) * 4096 + (b2 - 128) * 64 + (b3 - 128)) ::
            r.1, r.2)
        else
          let r := decodeGo f rest
          (r.1, r.2 + 1)
      | _ =>
        let r := decodeGo f rest
        (r.1, r.2 + 1)
    else
      let r := decodeGo f rest
      (r.1, r.2 + 1)

/-- Line 253: open(path, encoding="utf-8", errors="ignore") drops every
byte that is not part of a valid sequence. -/
def decodeIgnore (bs : List Nat) : List Nat × Nat := decodeGo bs.length bs

/-- UTF-8 encoded length of one code point. -/
def utf8LenCp (c : Nat) : Nat :=
  if c < 128 then 1 else if c < 2048 then 2 else if c < 65536 then 3 else 4

/-- UTF-8 encoded length of a code point sequence. -/
def utf8LenSum (cps : List Nat) : Nat := (cps.map utf8LenCp).sum

/-- Lines 42, 43, 119, 120 and 253 to 255: the reported File size is the
UTF-8 byte length of the decoded text, not the on-disk size. -/
def reportedFileSize (bs : List Nat) : Nat := utf8LenSum (decodeIgnore bs).1

/-- Lines 302 to 304: saved = report.file_size minus the written output
size. -/
def reportedSavings (bs : List Nat) (outSize : Nat) : Int :=
  (reportedFileSize bs : Int) - (outSize : Int)

/-- The true on-disk reduction: input file byte count minus output size. -/
def diskSavings (bs : List Nat) (outSize : Nat) : Int :=
  (bs.length : Int) - (outSize : Int)

example : decodeIgnore [72, 255, 105] = ([72, 105], 1) := by rfl
example : decodeIgnore [226, 130, 172] = ([8364], 0) := by rfl
example : decodeIgnore [226, 130] = ([], 2) := by rfl
example : decodeIgnore [237, 160, 128] = ([], 3) := by rfl
example : decodeIgnore [240, 159, 152, 128] = ([128512], 0) := by rfl

/-- Checked classification as claim C3 words it, clause by clause: the
result-state class token wins, then the inner indicator with its
visibility test, then the sibling opacity clause (unchecked), then the
unchecked default. -/
def claimChecked (attrs : List (String × String)) (cs sibs : NodeList) : Bool :=
  if strContains (classJoinedLower attrs) "result-state" then true
  else
    match selectInner cs with
    | some inner => !(strContains (styleLower (attrsOf inner)) "visibility: hidden")
    | none =>
      match firstDivL sibs with
      | some d =>
        if strContains (styleLower (attrsOf d)) "opacity: 0.6" ||
            strContains (styleLower (attrsOf d)) "opacity:.6" then false
        else false
      | none => false

/-- The base marker string of is_checked_marker is always the checked or
the unchecked literal pair selected by the radio-shape test. -/
theorem isCheckedMarker_base (attrs : List (String × String)) (cs sibs : NodeList) :
    (isCheckedMarker attrs cs sibs).2 = (if radioStyle attrs then "(•) " else "[x] ") ∨
      (isCheckedMarker attrs cs sibs).2 = (if radioStyle attrs then "( ) " else "[ ] ") := by
  unfold isCheckedMarker
  cases h1 : strContains (classJoinedLower attrs) "result-state" <;> simp [h1]
  cases h2 : selectInner cs <;> simp [h2]
  cases h3 : firstDivL sibs <;> simp [h3]

/-- C3: for every Shape-B marker span the classification follows the
claimed precedence: radio exactly when the inline style contains
border-radius 100% (either spelling) or width: 32px, and checked by the
clause order result-state class, inner indicator visibility, sibling
opacity (unchecked), default unchecked.  The shape of the returned base
marker is observed by its opening parenthesis. -/
theorem c3_marker_classification : ∀ (attrs : List (String × String)) (cs sibs : NodeList),
    (isCheckedMarker attrs cs sibs).1 = claimChecked attrs cs sibs ∧
      strContains (isCheckedMarker attrs cs sibs).2 "(" = radioStyle attrs := by
  intro attrs cs sibs
  unfold isCheckedMarker claimChecked
  cases h1 : strContains (classJoinedLower attrs) "result-state" <;>
    cases h5 : radioStyle attrs <;> simp [h1, h5] <;> try decide
  all_goals cases h2 : selectInner cs <;> simp [h2] <;> try decide
  all_goals cases h3 : firstDivL sibs <;> simp [h3] <;> decide

/-- C4: the emitted Shape-B marker text is always one of the four Shape-A
literals, and every unchecked classification yields exactly the unchecked
literal of its shape through the glyph substitution of line 242. -/
theorem c4_marker_text_literals : ∀ (attrs : List (String × String)) (cs sibs : NodeList),
    (markerTextB attrs cs sibs = "[x] " ∨ markerTextB attrs cs sibs = "[ ] " ∨
      markerTextB attrs cs sibs = "(•) " ∨ markerTextB attrs cs sibs = "( ) ") ∧
      ((isCheckedMarker attrs cs sibs).1 = false →
        markerTextB attrs cs sibs = if radioStyle attrs then "( ) " else "[ ] ") := by
  intro attrs cs sibs
  have hbase := isCheckedMarker_base attrs cs sibs
  cases hr : radioStyle attrs <;> rw [hr] at hbase <;> simp at hbase <;>
    cases hchk : (isCheckedMarker attrs cs sibs).1 <;>
    rcases hbase with hb | hb <;>
    simp [markerTextB, hchk, hb, hr] <;> decide

/-- Witness for C4 at a concrete marker: an inner font-icon indicator with
visibility: hidden classifies unchecked while the base marker is the
checked checkbox literal, and the substitution still emits the plain
unchecked checkbox literal. -/
theorem c4_marker_text_literals_witness :
    (isCheckedMarker []
        (.cons (.elem "i" [("class", "fa"), ("style", "visibility: hidden")] .nil) .nil)
        .nil).1 = false ∧
      markerTextB []
        (.cons (.elem "i" [("class", "fa"), ("style", "visibility: hidden")] .nil) .nil)
        .nil = "[ ] " := by
  refine ⟨by rfl, ?_⟩
  have h := (c4_marker_text_literals []
    (.cons (.elem "i" [("class", "fa"), ("style", "visibility: hidden")] .nil) .nil)
    .nil).2 (by rfl)
  simpa using h

/-- The convoluted checked test of line 186 is presence of the checked
attribute: the second disjunct compares the attribute value with itself
and is always true. -/
theorem checkedCode_eq (attrs : List (String × String)) :
    checkedCode attrs = hasA attrs "checked" := by
  unfold checkedCode
  cases h : hasA attrs "checked" <;> simp [h]

/-- The Shape A marker of the source equals the claim wording's marker. -/
theorem markerA_eq (attrs : List (String × String)) : markerA attrs = markerASpec attrs := by
  simp [markerA, markerASpec, checkedCode_eq]

/-- Shape A flattening of the source equals the claim wording's
flattening on every sibling sequence. -/
theorem flatA_eq_spec : ∀ l : NodeList, flatAL l = flatASpecL l
  | .nil => rfl
  | .cons (.elem n attrs cs) rest => by
    have ih1 := flatA_eq_spec cs
    have ih2 := flatA_eq_spec rest
    simp only [flatAL, flatASpecL, ih1, ih2, markerA_eq]
  | .cons (.text s) rest => by
    have ih := flatA_eq_spec rest
    simp only [flatAL, flatASpecL, ih]
  | .cons (.comment s) rest => by
    have ih := flatA_eq_spec rest
    simp only [flatAL, flatASpecL, ih]

/-- After Shape A flattening no checkbox or radio input remains. -/
theorem flatA_noInput : ∀ l : NodeList, noFlatInputL (flatAL l) = true
  | .nil => rfl
  | .cons (.elem n attrs cs) rest => by
    have ih1 := flatA_noInput cs
    have ih2 := flatA_noInput rest
    cases h : (n == "input" && (typeLower attrs == "checkbox" || typeLower attrs == "radio")) <;>
      simp [flatAL, noFlatInputL, noFlatInputN, h, ih1, ih2]
  | .cons (.text s) rest => by
    have ih := flatA_noInput rest
    simp [flatAL, noFlatInputL, noFlatInputN, ih]
  | .cons (.comment s) rest => by
    have ih := flatA_noInput rest
    simp [flatAL, noFlatInputL, noFlatInputN, ih]

/-- C2: checkbox/radio flattening classifies checked exactly by presence
of the checked attribute (the extra value comparison of line 186 being
always true), replaces each such input in place by its literal marker
text, and leaves no checkbox or radio input in the output.  The first
conjunct equates the source transform with the transform written from
the claim's wording (presence test, marker literal, text inserted
immediately before the removed input's position). -/
theorem c2_flatten_native_inputs :
    (∀ l : NodeList, flatAL l = flatASpecL l) ∧
      ∀ l : NodeList, noFlatInputL (flatAL l) = true :=
  ⟨flatA_eq_spec, flatA_noInput⟩

/-- C7: when base64 decoding of a matched payload fails, analysis is
total and adds exactly floor(len(payload) * 0.75) to data_uri_bytes. -/
theorem c7_b64_fallback : ∀ p : String, b64DecodedLen p = none →
    payloadBytes p = 3 * p.length / 4 := by
  intro p h
  simp [payloadBytes, h]

/-- Witness for C7: the five-character payload AAAAA is not decodable and
contributes floor(5 * 0.75) = 3 bytes. -/
theorem c7_b64_fallback_witness :
    b64DecodedLen "AAAAA" = none ∧ payloadBytes "AAAAA" = 3 * "AAAAA".length / 4 :=
  ⟨by rfl, c7_b64_fallback "AAAAA" (by rfl)⟩

/-- The parse tree of the C8 example input
html body comment c and p with style color:red containing the text Hi,
exactly as the lxml parser hands it to the analyzer. -/
def exC8 : NodeList :=
  .cons (.elem "html" []
    (.cons (.elem "body" []
      (.cons (.comment "c")
        (.cons (.elem "p" [("style", "color:red")] (.cons (.text "Hi") .nil)) .nil)))
      .nil)) .nil

/-- Counterexample to C8 as stated: on the example document the analyzer
returns comments_bytes 1 (the comment text is the single byte c) and
inline_style_attr_bytes 9 (color:red is nine bytes), not 3 and 10. -/
theorem c8_counterexample :
    ¬((commentsBytesL exC8, inlineStyleBytesL exC8, textCharsCode exC8,
        scriptsBytesL exC8) = ((3 : Nat), (10 : Nat), (2 : Nat), (0 : Nat))) := by
  decide

/-- C8 amended: the example yields comments_bytes 1,
inline_style_attr_bytes 9, text_chars 2 and scripts_bytes 0. -/
theorem c8_amended_example :
    (commentsBytesL exC8, inlineStyleBytesL exC8, textCharsCode exC8,
      scriptsBytesL exC8) = ((1 : Nat), (9 : Nat), (2 : Nat), (0 : Nat)) := by
  decide

/-- Left fold of payload contributions is the accumulator plus the sum. -/
theorem foldl_add_payload : ∀ (ps : List String) (acc : Nat),
    ps.foldl (fun b p => b + payloadBytes p) acc = acc + (ps.map payloadBytes).sum := by
  intro ps
  induction ps with
  | nil => simp
  | cons p ps ih => intro acc; simp [List.foldl_cons, ih, Nat.add_assoc]

/-- The count_data_uri loop adds exactly the payload byte sum of the string. -/
theorem countDataUriAcc_eq (s : String) (acc : Nat) :
    countDataUriAcc s acc = acc + strDataUriBytes s := by
  unfold countDataUriAcc strDataUriBytes
  exact foldl_add_payload _ _

/-- The empty string holds no data URI. -/
theorem strDataUriBytes_empty : strDataUriBytes "" = 0 := by rfl

mutual
/-- The img/source fold adds the payload bytes and the count of the
qualifying resolved values of the subtree. -/
theorem imgScanN_eq : ∀ (c : Node) (acc : Nat × Nat),
    imgScanN c acc = (acc.1 + ((qualSrcValsN c).map strDataUriBytes).sum,
      acc.2 + (qualSrcValsN c).length)
  | .elem n attrs cs, acc => by
    have ih := imgScanL_eq cs
    cases h : (n == "img" || n == "source") <;>
      cases h2 : strStarts (resolvedSrc attrs) "data:" <;>
      simp [imgScanN, qualSrcValsN, h, h2, ih, countDataUriAcc_eq, Nat.add_assoc] <;>
      try omega
  | .text s, acc => by simp [imgScanN, qualSrcValsN]
  | .comment s, acc => by simp [imgScanN, qualSrcValsN]
/-- Sibling-sequence part of imgScanN_eq. -/
theorem imgScanL_eq : ∀ (l : NodeList) (acc : Nat × Nat),
    imgScanL l acc = (acc.1 + ((qualSrcValsL l).map strDataUriBytes).sum,
      acc.2 + (qualSrcValsL l).length)
  | .nil, acc => by simp [imgScanL, qualSrcValsL]
  | .cons c rest, acc => by
    have ih1 := imgScanN_eq c
    have ih2 := imgScanL_eq rest
    simp [imgScanL, qualSrcValsL, ih1, ih2, Nat.add_assoc]
end

mutual
/-- The style fold adds the payload bytes of every style value of the
subtree. -/
theorem styleScanN_eq : ∀ (c : Node) (acc : Nat),
    styleScanN c acc = acc + ((styleValsN c).map strDataUriBytes).sum
  | .elem n attrs cs, acc => by
    have ih := styleScanL_eq cs
    cases h : getA attrs "style" with
    | none => simp [styleScanN, styleValsN, h, ih]
    | some s =>
      cases h2 : (s == "") <;>
        simp [styleScanN, styleValsN, h, h2, ih, countDataUriAcc_eq, Nat.add_assoc]
      have h3 : s = "" := by simpa using h2
      simp [h3, strDataUriBytes_empty]
  | .text s, acc => by simp [styleScanN, styleValsN]
  | .comment s, acc => by simp [styleScanN, styleValsN]
/-- Sibling-sequence part of styleScanN_eq. -/
theorem styleScanL_eq : ∀ (l : NodeList) (acc : Nat),
    styleScanL l acc = acc + ((styleValsL l).map strDataUriBytes).sum
  | .nil, acc => by simp [styleScanL, styleValsL]
  | .cons c rest, acc => by
    have ih1 := styleScanN_eq c
    have ih2 := styleScanL_eq rest
    simp [styleScanL, styleValsL, ih1, ih2, Nat.add_assoc]
end

/-- An img element whose src does not start with data: but contains a
well-formed data URI after a leading chunk. -/
def exC6 : NodeList :=
  .cons (.elem "img" [("src", "x, data:image/png;base64,AAAA")] .nil) .nil

/-- Counterexample to C6 as stated: the analyzer only scans the resolved
src-or-srcset value when it starts with data:, so this data-URI substring
inside a src attribute contributes nothing, while the claim's sum over
all substrings found in src attributes yields its three decoded bytes. -/
theorem c6_counterexample :
    dataUriBytesCode exC6 = 0 ∧ claimDataUriBytes exC6 = 3 := ⟨by rfl, by rfl⟩

/-- C6 amended: data_uri_bytes is the payload byte sum over the resolved
src-or-srcset values of img/source elements that start with data:, plus
every element's style attribute value; images_count is the number of
img/source elements whose resolved value starts with data: . -/
theorem c6_amended_data_uri : ∀ l : NodeList,
    dataUriBytesCode l = amendedDataUriBytes l ∧ imagesCountCode l = specImagesCount l := by
  intro l
  unfold dataUriBytesCode amendedDataUriBytes imagesCountCode specImagesCount
  rw [imgScanL_eq, styleScanL_eq]
  simp [Nat.add_assoc]

/-- stripTagsL establishes absence of every name in its list. -/
theorem stripTags_noElemP : ∀ (bad : List String) (l : NodeList),
    noElemPL (fun n => nameMem bad n) (stripTagsL bad l) = true
  | bad, .nil => rfl
  | bad, .cons (.elem n attrs cs) rest => by
    have ih1 := stripTags_noElemP bad cs
    have ih2 := stripTags_noElemP bad rest
    cases hb : nameMem bad n <;>
      simp [stripTagsL, hb, noElemPL, noElemPN, ih1, ih2]
  | bad, .cons (.text s) rest => by
    have ih := stripTags_noElemP bad rest
    simp [stripTagsL, noElemPL, noElemPN, ih]
  | bad, .cons (.comment s) rest => by
    have ih := stripTags_noElemP bad rest
    simp [stripTagsL, noElemPL, noElemPN, ih]

/-- stripTagsL only removes elements, so it preserves any name-absence. -/
theorem stripTags_pres : ∀ (p : String → Bool) (bad : List String) (l : NodeList),
    noElemPL p l = true → noElemPL p (stripTagsL bad l) = true
  | p, bad, .nil => fun _ => rfl
  | p, bad, .cons (.elem n attrs cs) rest => by
    intro h
    simp [noElemPL, noElemPN] at h
    have ih1 := stripTags_pres p bad cs h.1.2
    have ih2 := stripTags_pres p bad rest h.2
    cases hb : nameMem bad n <;>
      simp [stripTagsL, hb, noElemPL, noElemPN, ih1, ih2, h.1.1]
  | p, bad, .cons (.text s) rest => by
    intro h
    simp [noElemPL, noElemPN] at h
    have ih := stripTags_pres p bad rest h
    simp [stripTagsL, noElemPL, noElemPN, ih]
  | p, bad, .cons (.comment s) rest => by
    intro h
    simp [noElemPL, noElemPN] at h
    have ih := stripTags_pres p bad rest h
    simp [stripTagsL, noElemPL, noElemPN, ih]

/-- stripLinksL only removes elements, so it preserves any name-absence. -/
theorem stripLinks_pres : ∀ (p : String → Bool) (l : NodeList),
    noElemPL p l = true → noElemPL p (stripLinksL l) = true
  | p, .nil => fun _ => rfl
  | p, .cons (.elem n attrs cs) rest => by
    intro h
    simp [noElemPL, noElemPN] at h
    have ih1 := stripLinks_pres p cs h.1.2
    have ih2 := stripLinks_pres p rest h.2
    cases hb : (n == "link" && badRel attrs) <;>
      simp [stripLinksL, hb, noElemPL, noElemPN, ih1, ih2, h.1.1]
  | p, .cons (.text s) rest => by
    intro h
    simp [noElemPL, noElemPN] at h
    have ih := stripLinks_pres p rest h
    simp [stripLinksL, noElemPL, noElemPN, ih]
  | p, .cons (.comment s) rest => by
    intro h
    simp [noElemPL, noElemPN] at h
    have ih := stripLinks_pres p rest h
    simp [stripLinksL, noElemPL, noElemPN, ih]

/-- stripOnL keeps every element name, so it preserves any name-absence. -/
theorem stripOn_pres : ∀ (p : String → Bool) (l : NodeList),
    noElemPL p l = true → noElemPL p (stripOnL l) = true
  | p, .nil => fun _ => rfl
  | p, .cons (.elem n attrs cs) rest => by
    intro h
    simp [noElemPL, noElemPN] at h
    have ih1 := stripOn_pres p cs h.1.2
    have ih2 := stripOn_pres p rest h.2
    simp [stripOnL, noElemPL, noElemPN, ih1, ih2, h.1.1]
  | p, .cons (.text s) rest => by
    intro h
    simp [noElemPL, noElemPN] at h
    have ih := stripOn_pres p rest h
    simp [stripOnL, noElemPL, noElemPN, ih]
  | p, .cons (.comment s) rest => by
    intro h
    simp [noElemPL, noElemPN] at h
    have ih := stripOn_pres p rest h
    simp [stripOnL, noElemPL, noElemPN, ih]

/-- stripCommentsL removes no element, changes no name. -/
theorem stripComments_pres : ∀ (p : String → Bool) (l : NodeList),
    noElemPL p l = true → noElemPL p (stripCommentsL l) = true
  | p, .nil => fun _ => rfl
  | p, .cons (.elem n attrs cs) rest => by
    intro h
    simp [noElemPL, noElemPN] at h
    have ih1 := stripComments_pres p cs h.1.2
    have ih2 := stripComments_pres p rest h.2
    simp [stripCommentsL, noElemPL, noElemPN, ih1, ih2, h.1.1]
  | p, .cons (.text s) rest => by
    intro h
    simp [noElemPL, noElemPN] at h
    have ih := stripComments_pres p rest h
    simp [stripCommentsL, noElemPL, noElemPN, ih]
  | p, .cons (.comment s) rest => by
    intro h
    simp [noElemPL, noElemPN] at h
    have ih := stripComments_pres p rest h
    simp [stripCommentsL, ih]

/-- flatAL inserts only text nodes and removes only input elements. -/
theorem flatA_pres : ∀ (p : String → Bool) (l : NodeList),
    noElemPL p l = true → noElemPL p (flatAL l) = true
  | p, .nil => fun _ => rfl
  | p, .cons (.elem n attrs cs) rest => by
    intro h
    simp [noElemPL, noElemPN] at h
    have ih1 := flatA_pres p cs h.1.2
    have ih2 := flatA_pres p rest h.2
    cases hb : (n == "input" && (typeLower attrs == "checkbox" || typeLower attrs == "radio")) <;>
      simp [flatAL, hb, noElemPL, noElemPN, ih1, ih2, h.1.1]
  | p, .cons (.text s) rest => by
    intro h
    simp [noElemPL, noElemPN] at h
    have ih := flatA_pres p rest h
    simp [flatAL, noElemPL, noElemPN, ih]
  | p, .cons (.comment s) rest => by
    intro h
    simp [noElemPL, noElemPN] at h
    have ih := flatA_pres p rest h
    simp [flatAL, noElemPL, noElemPN, ih]

/-- Pending marker texts are text nodes, invisible to name-absence. -/
theorem appendMarkers_noElemP : ∀ (p : String → Bool) (pend : List String) (l : NodeList),
    noElemPL p (appendMarkers pend l) = noElemPL p l
  | p, [], l => rfl
  | p, t :: ts, l => by
    have ih := appendMarkers_noElemP p ts l
    simp [appendMarkers, noElemPL, noElemPN, ih]

/-- flatBL inserts only text nodes and removes only span elements. -/
theorem flatB_pres : ∀ (p : String → Bool) (pend : List String) (l : NodeList),
    noElemPL p l = true → noElemPL p (flatBL pend l) = true
  | p, pend, .nil => fun _ => rfl
  | p, pend, .cons (.elem n attrs cs) rest => by
    intro h
    simp [noElemPL, noElemPN] at h
    have ih1 := flatB_pres p [] cs h.1.2
    have ih2 := flatB_pres p pend rest h.2
    have ih3 := flatB_pres p (pend ++ [markerTextB attrs cs rest]) rest h.2
    have ih4 := flatB_pres p [] rest h.2
    cases hd : (n == "div") <;>
      cases hc : (n == "span" && vendorClass attrs && qualifiesB rest) <;>
      simp [flatBL, hd, hc, noElemPL, noElemPN, ih1, ih2, ih3, ih4,
        appendMarkers_noElemP, h.1.1]
  | p, pend, .cons (.text s) rest => by
    intro h
    simp [noElemPL, noElemPN] at h
    have ih := flatB_pres p pend rest h
    simp [flatBL, noElemPL, noElemPN, ih]
  | p, pend, .cons (.comment s) rest => by
    intro h
    simp [noElemPL, noElemPN] at h
    have ih := flatB_pres p pend rest h
    simp [flatBL, noElemPL, noElemPN, ih]

/-- Filtering out inline handler attributes leaves only clean attributes. -/
theorem filter_noOn (attrs : List (String × String)) :
    (attrs.filter (fun q => !isOnAttr q.1)).all (fun q => !isOnAttr q.1) = true := by
  rw [List.all_eq_true]
  intro x hx
  simp only [List.mem_filter] at hx
  exact hx.2

/-- stripOnL establishes the absence of inline handler attributes. -/
theorem stripOn_noOn : ∀ l : NodeList, noOnL (stripOnL l) = true
  | .nil => rfl
  | .cons (.elem n attrs cs) rest => by
    have ih1 := stripOn_noOn cs
    have ih2 := stripOn_noOn rest
    simp [stripOnL, noOnL, noOnN, ih1, ih2, filter_noOn]
  | .cons (.text s) rest => by
    have ih := stripOn_noOn rest
    simp [stripOnL, noOnL, noOnN, ih]
  | .cons (.comment s) rest => by
    have ih := stripOn_noOn rest
    simp [stripOnL, noOnL, noOnN, ih]

/-- stripTagsL never touches attributes. -/
theorem stripTags_noOn_pres : ∀ (bad : List String) (l : NodeList),
    noOnL l = true → noOnL (stripTagsL bad l) = true
  | bad, .nil => fun _ => rfl
  | bad, .cons (.elem n attrs cs) rest => by
    intro h
    simp [noOnL, noOnN] at h
    have ih1 := stripTags_noOn_pres bad cs h.1.2
    have ih2 := stripTags_noOn_pres bad rest h.2
    cases hb : nameMem bad n <;>
      simp [stripTagsL, hb, noOnL, noOnN, ih1, ih2] <;> exact h.1.1
  | bad, .cons (.text s) rest => by
    intro h
    simp [noOnL, noOnN] at h
    have ih := stripTags_noOn_pres bad rest h
    simp [stripTagsL, noOnL, noOnN, ih]
  | bad, .cons (.comment s) rest => by
    intro h
    simp [noOnL, noOnN] at h
    have ih := stripTags_noOn_pres bad rest h
    simp [stripTagsL, noOnL, noOnN, ih]

/-- stripCommentsL never touches attributes. -/
theorem stripComments_noOn_pres : ∀ l : NodeList,
    noOnL l = true → noOnL (stripCommentsL l) = true
  | .nil => fun _ => rfl
  | .cons (.elem n attrs cs) rest => by
    intro h
    simp [noOnL, noOnN] at h
    have ih1 := stripComments_noOn_pres cs h.1.2
    have ih2 := stripComments_noOn_pres rest h.2
    simp [stripCommentsL, noOnL, noOnN, ih1, ih2]
    exact h.1.1
  | .cons (.text s) rest => by
    intro h
    simp [noOnL, noOnN] at h
    have ih := stripComments_noOn_pres rest h
    simp [stripCommentsL, noOnL, noOnN, ih]
  | .cons (.comment s) rest => by
    intro h
    simp [noOnL, noOnN] at h
    have ih := stripComments_noOn_pres rest h
    simp [stripCommentsL, ih]

/-- flatAL keeps surviving attribute lists untouched. -/
theorem flatA_noOn_pres : ∀ l : NodeList, noOnL l = true → noOnL (flatAL l) = true
  | .nil => fun _ => rfl
  | .cons (.elem n attrs cs) rest => by
    intro h
    simp [noOnL, noOnN] at h
    have ih1 := flatA_noOn_pres cs h.1.2
    have ih2 := flatA_noOn_pres rest h.2
    cases hb : (n == "input" && (typeLower attrs == "checkbox" || typeLower attrs == "radio")) <;>
      simp [flatAL, hb, noOnL, noOnN, ih1, ih2] <;> exact h.1.1
  | .cons (.text s) rest => by
    intro h
    simp [noOnL, noOnN] at h
    have ih := flatA_noOn_pres rest h
    simp [flatAL, noOnL, noOnN, ih]
  | .cons (.comment s) rest => by
    intro h
    simp [noOnL, noOnN] at h
    have ih := flatA_noOn_pres rest h
    simp [flatAL, noOnL, noOnN, ih]

/-- Pending marker texts are text nodes, invisible to attribute-absence. -/
theorem appendMarkers_noOn : ∀ (pend : List String) (l : NodeList),
    noOnL (appendMarkers pend l) = noOnL l
  | [], l => rfl
  | t :: ts, l => by
    have ih := appendMarkers_noOn ts l
    simp [appendMarkers, noOnL, noOnN, ih]

/-- flatBL keeps surviving attribute lists untouched. -/
theorem flatB_noOn_pres : ∀ (pend : List String) (l : NodeList),
    noOnL l = true → noOnL (flatBL pend l) = true
  | pend, .nil => fun _ => rfl
  | pend, .cons (.elem n attrs cs) rest => by
    intro h
    simp [noOnL, noOnN] at h
    have ih1 := flatB_noOn_pres [] cs h.1.2
    have ih2 := flatB_noOn_pres pend rest h.2
    have ih3 := flatB_noOn_pres (pend ++ [markerTextB attrs cs rest]) rest h.2
    have ih4 := flatB_noOn_pres [] rest h.2
    cases hd : (n == "div") <;>
      cases hc : (n == "span" && vendorClass attrs && qualifiesB rest) <;>
      simp [flatBL, hd, hc, noOnL, noOnN, ih1, ih2, ih3, ih4,
        appendMarkers_noOn] <;> exact h.1.1
  | pend, .cons (.text s) rest => by
    intro h
    simp [noOnL, noOnN] at h
    have ih := flatB_noOn_pres pend rest h
    simp [flatBL, noOnL, noOnN, ih]
  | pend, .cons (.comment s) rest => by
    intro h
    simp [noOnL, noOnN] at h
    have ih := flatB_noOn_pres pend rest h
    simp [flatBL, noOnL, noOnN, ih]

/-- Two name-absences combine into the absence of the disjunction. -/
theorem noElemP_or : ∀ (p q : String → Bool) (l : NodeList),
    noElemPL p l = true → noElemPL q l = true →
    noElemPL (fun n => p n || q n) l = true
  | p, q, .nil => fun _ _ => rfl
  | p, q, .cons (.elem n attrs cs) rest => by
    intro h1 h2
    simp [noElemPL, noElemPN] at h1 h2
    have ihc := noElemP_or p q cs h1.1.2 h2.1.2
    have ihr := noElemP_or p q rest h1.2 h2.2
    simp [noElemPL, noElemPN, ihc, ihr, h1.1.1, h2.1.1]
  | p, q, .cons (.text s) rest => by
    intro h1 h2
    simp [noElemPL, noElemPN] at h1 h2
    have ih := noElemP_or p q rest h1 h2
    simp [noElemPL, noElemPN, ih]
  | p, q, .cons (.comment s) rest => by
    intro h1 h2
    simp [noElemPL, noElemPN] at h1 h2
    have ih := noElemP_or p q rest h1 h2
    simp [noElemPL, noElemPN, ih]

/-- Name-absence respects pointwise equality of the name predicate. -/
theorem noElemP_ext : ∀ (p q : String → Bool) (l : NodeList),
    (∀ n, p n = q n) → noElemPL p l = noElemPL q l
  | p, q, .nil => fun _ => rfl
  | p, q, .cons (.elem n attrs cs) rest => by
    intro hpq
    have ihc := noElemP_ext p q cs hpq
    have ihr := noElemP_ext p q rest hpq
    simp [noElemPL, noElemPN, ihc, ihr, hpq n]
  | p, q, .cons (.text s) rest => by
    intro hpq
    have ih := noElemP_ext p q rest hpq
    simp [noElemPL, noElemPN, ih]
  | p, q, .cons (.comment s) rest => by
    intro hpq
    have ih := noElemP_ext p q rest hpq
    simp [noElemPL, noElemPN, ih]

/-- The five-name membership splits along the two removal passes. -/
theorem nameMem_bad5 (n : String) :
    nameMem ["script", "style", "iframe", "embed", "object"] n =
      (nameMem ["script", "style"] n || nameMem ["iframe", "embed", "object"] n) := by
  simp [nameMem, List.any_cons, List.any_nil, Bool.or_assoc]

/-- C1: for every input tree and both flags, the aggressive strip output
contains no script, style, iframe, embed or object element and no
attribute whose lowercased name starts with on. -/
theorem c1_strip_clean : ∀ (l : NodeList) (keep flat : Bool),
    noElemPL (fun n => nameMem ["script", "style", "iframe", "embed", "object"] n)
        (stripNontextF keep flat l) = true ∧
      noOnL (stripNontextF keep flat l) = true := by
  intro l keep flat
  have e3 : noElemPL (fun n => nameMem ["script", "style"] n)
      (stripTagsL ["iframe", "embed", "object"] (stripLinksL (stripTagsL ["script", "style"] l))) = true :=
    stripTags_pres _ _ _ (stripLinks_pres _ _ (stripTags_noElemP _ _))
  have f3 : noElemPL (fun n => nameMem ["iframe", "embed", "object"] n)
      (stripTagsL ["iframe", "embed", "object"] (stripLinksL (stripTagsL ["script", "style"] l))) = true :=
    stripTags_noElemP _ _
  have e4 := stripOn_pres _ _ e3
  have f4 := stripOn_pres _ _ f3
  have g4 := stripOn_noOn (stripTagsL ["iframe", "embed", "object"] (stripLinksL (stripTagsL ["script", "style"] l)))
  unfold stripNontextF
  cases keep <;> cases flat <;> simp only [Bool.false_eq_true, if_true, if_false, ite_true, ite_false]
  case false.false =>
    exact ⟨by
        rw [noElemP_ext _ _ _ nameMem_bad5]
        exact noElemP_or _ _ _ (stripComments_pres _ _ (stripTags_pres _ _ _ e4))
          (stripComments_pres _ _ (stripTags_pres _ _ _ f4)),
      stripComments_noOn_pres _ (stripTags_noOn_pres _ _ g4)⟩
  case false.true =>
    exact ⟨by
        rw [noElemP_ext _ _ _ nameMem_bad5]
        exact flatB_pres _ _ _ (flatA_pres _ _ (noElemP_or _ _ _
          (stripComments_pres _ _ (stripTags_pres _ _ _ e4))
          (stripComments_pres _ _ (stripTags_pres _ _ _ f4)))),
      flatB_noOn_pres _ _ (flatA_noOn_pres _ (stripComments_noOn_pres _ (stripTags_noOn_pres _ _ g4)))⟩
  case true.false =>
    exact ⟨by
        rw [noElemP_ext _ _ _ nameMem_bad5]
        exact noElemP_or _ _ _ (stripComments_pres _ _ e4) (stripComments_pres _ _ f4),
      stripComments_noOn_pres _ g4⟩
  case true.true =>
    exact ⟨by
        rw [noElemP_ext _ _ _ nameMem_bad5]
        exact flatB_pres _ _ _ (flatA_pres _ _ (noElemP_or _ _ _
          (stripComments_pres _ _ e4) (stripComments_pres _ _ f4))),
      flatB_noOn_pres _ _ (flatA_noOn_pres _ (stripComments_noOn_pres _ g4))⟩

/-- No span anywhere in the tree is an active Shape B candidate: at every
level, no span has the vendor class together with a following sibling div
that has visible text. -/
def noActiveL : NodeList → Bool
  | .nil => true
  | .cons (.elem n attrs cs) rest =>
    !(n == "span" && vendorClass attrs && qualifiesB rest) && noActiveL cs &&
      noActiveL rest
  | .cons _ rest => noActiveL rest

/-- Siblings between a candidate span and its target div: no div and no
vendor-class span among them. -/
def midOkL : NodeList → Bool
  | .nil => true
  | .cons (.elem n attrs _) rest =>
    !(n == "div") && !(n == "span" && vendorClass attrs) && midOkL rest
  | .cons _ rest => midOkL rest

/-- Map the Shape B pass over each node of a sequence independently. -/
def mapFlatB : NodeList → NodeList
  | .nil => .nil
  | .cons c rest => .cons (flatBN c) (mapFlatB rest)

/-- A span candidate with class uu-coursekit, then a p element, then the
text div: the immediately following sibling of the span is not a div. -/
def exSpanPDiv : NodeList :=
  .cons (.elem "span" [("class", "uu-coursekit")] .nil)
    (.cons (.elem "p" [] .nil)
      (.cons (.elem "div" [] (.cons (.text "A") .nil)) .nil))

/-- Counterexample to C5 as stated: the candidate span has no immediately
following sibling div (a p element intervenes), so the claim says it is
left entirely untouched; the source uses find_next_sibling and still
flattens it, removing the span and inserting the marker text before the
later div. -/
theorem c5_counterexample :
    flatBL [] exSpanPDiv =
        .cons (.elem "p" [] .nil)
          (.cons (.text "[ ] ")
            (.cons (.elem "div" [] (.cons (.text "A") .nil)) .nil)) ∧
      noElemPL (fun n => n == "span") exSpanPDiv = false ∧
      noElemPL (fun n => n == "span") (flatBL [] exSpanPDiv) = true :=
  ⟨rfl, rfl, rfl⟩

/-- When no candidate is active anywhere, the Shape B pass is the
identity. -/
theorem flatB_inactive_id : ∀ l : NodeList, noActiveL l = true → flatBL [] l = l
  | .nil => fun _ => rfl
  | .cons (.elem n attrs cs) rest => by
    intro h
    simp only [noActiveL, Bool.and_eq_true] at h
    obtain ⟨⟨hcandT, hcs⟩, hrest⟩ := h
    have hcand : (n == "span" && vendorClass attrs && qualifiesB rest) = false := by
      revert hcandT
      cases (n == "span" && vendorClass attrs && qualifiesB rest) <;> simp
    have ih1 := flatB_inactive_id cs hcs
    have ih2 := flatB_inactive_id rest hrest
    cases hd : (n == "div") <;>
      simp [flatBL, hd, hcand, ih1, ih2, appendMarkers]
  | .cons (.text s) rest => by
    intro h
    simp [noActiveL] at h
    have ih := flatB_inactive_id rest h
    simp [flatBL, ih]
  | .cons (.comment s) rest => by
    intro h
    simp [noActiveL] at h
    have ih := flatB_inactive_id rest h
    simp [flatBL, ih]

/-- The first div sibling lies after any div-free, candidate-free middle. -/
theorem firstDiv_append : ∀ (mid rest2 : NodeList), midOkL mid = true →
    firstDivL (appendNL mid rest2) = firstDivL rest2
  | .nil, rest2 => fun _ => rfl
  | .cons (.elem n attrs cs) mid, rest2 => by
    intro h
    simp [midOkL] at h
    have ih := firstDiv_append mid rest2 h.2
    simp [appendNL, firstDivL, ih, h.1.1]
  | .cons (.text s) mid, rest2 => by
    intro h
    simp [midOkL] at h
    have ih := firstDiv_append mid rest2 h
    simp [appendNL, firstDivL, ih]
  | .cons (.comment s) mid, rest2 => by
    intro h
    simp [midOkL] at h
    have ih := firstDiv_append mid rest2 h
    simp [appendNL, firstDivL, ih]

/-- Pending markers travel unchanged across a div-free, candidate-free
middle, whose nodes are processed independently. -/
theorem flatB_carry : ∀ (pend : List String) (mid rest2 : NodeList), midOkL mid = true →
    flatBL pend (appendNL mid rest2) = appendNL (mapFlatB mid) (flatBL pend rest2)
  | pend, .nil, rest2 => fun _ => rfl
  | pend, .cons (.elem n attrs cs) mid, rest2 => by
    intro h
    simp only [midOkL, Bool.and_eq_true] at h
    obtain ⟨⟨hdT, hsvT⟩, hm2⟩ := h
    have hdF : (n == "div") = false := by
      revert hdT
      cases (n == "div") <;> simp
    have hsvF : (n == "span" && vendorClass attrs) = false := by
      revert hsvT
      cases (n == "span" && vendorClass attrs) <;> simp
    have ih := flatB_carry pend mid rest2 hm2
    have hc : (n == "span" && vendorClass attrs &&
        qualifiesB (appendNL mid rest2)) = false := by
      simp [hsvF]
    simp [appendNL, flatBL, mapFlatB, flatBN, hdF, hc, ih]
  | pend, .cons (.text s) mid, rest2 => by
    intro h
    simp [midOkL] at h
    have ih := flatB_carry pend mid rest2 h
    simp [appendNL, flatBL, mapFlatB, flatBN, ih]
  | pend, .cons (.comment s) mid, rest2 => by
    intro h
    simp [midOkL] at h
    have ih := flatB_carry pend mid rest2 h
    simp [appendNL, flatBL, mapFlatB, flatBN, ih]

/-- C5 amended: only vendor-class spans are candidates (part one: a tree
with no active candidate is returned unchanged), and a candidate span
whose nearest following sibling div (not necessarily immediate) has
visible text is removed with its marker text inserted immediately before
that div; the div keeps its name and attributes and the intervening
siblings stay in place (part two). -/
theorem c5_amended_shapeB :
    (∀ l : NodeList, noActiveL l = true → flatBL [] l = l) ∧
      ∀ (attrs : List (String × String)) (cs mid : NodeList)
        (dAttrs : List (String × String)) (dCs rest : NodeList),
        vendorClass attrs = true → midOkL mid = true →
        hasVisibleTextN (.elem "div" dAttrs dCs) = true →
        flatBL [] (.cons (.elem "span" attrs cs)
            (appendNL mid (.cons (.elem "div" dAttrs dCs) rest))) =
          appendNL (mapFlatB mid)
            (.cons (.text (markerTextB attrs cs
                (appendNL mid (.cons (.elem "div" dAttrs dCs) rest))))
              (.cons (.elem "div" dAttrs (flatBL [] dCs)) (flatBL [] rest))) := by
  constructor
  · exact flatB_inactive_id
  · intro attrs cs mid dAttrs dCs rest hv hm ht
    have hfd : firstDivL (appendNL mid (.cons (.elem "div" dAttrs dCs) rest)) =
        some (.elem "div" dAttrs dCs) := by
      rw [firstDiv_append mid _ hm]
      simp [firstDivL]
    have hq : qualifiesB (appendNL mid (.cons (.elem "div" dAttrs dCs) rest)) = true := by
      simp [qualifiesB, hfd, ht]
    simp only [flatBL, hv, hq]
    simp only [show (("span" : String) == "div") = false from rfl,
      show (("span" : String) == "span") = true from rfl, Bool.false_eq_true, if_false,
      Bool.true_and, Bool.and_self, if_true, List.nil_append]
    rw [flatB_carry _ mid _ hm]
    simp [flatBL, appendMarkers]

/-- Witness for C5 at the concrete candidate of the counterexample tree:
the span is removed, its marker text lands immediately before the div,
and the intervening p survives. -/
theorem c5_amended_shapeB_witness :
    flatBL [] (.cons (.elem "span" [("class", "uu-coursekit")] .nil)
        (appendNL (.cons (.elem "p" [] .nil) .nil)
          (.cons (.elem "div" [] (.cons (.text "A") .nil)) .nil))) =
      appendNL (mapFlatB (.cons (.elem "p" [] .nil) .nil))
        (.cons (.text (markerTextB [("class", "uu-coursekit")] .nil
            (appendNL (.cons (.elem "p" [] .nil) .nil)
              (.cons (.elem "div" [] (.cons (.text "A") .nil)) .nil))))
          (.cons (.elem "div" [] (flatBL [] (.cons (.text "A") .nil)))
            (flatBL [] .nil))) :=
  c5_amended_shapeB.2 [("class", "uu-coursekit")] .nil (.cons (.elem "p" [] .nil) .nil)
    [] (.cons (.text "A") .nil) .nil (by rfl) (by rfl) (by rfl)

/-- Chunk (text) tokens. -/
def isChunkTok : MTok → Bool
  | .chunk _ => true
  | _ => false

/-- The stream starts with a text chunk. -/
def headIsChunk : List MTok → Bool
  | .chunk _ :: _ => true
  | _ => false

/-- No comment token in the stream. -/
def noRemToks (ts : List MTok) : Bool := ts.all (fun t => !isRem t)

/-- No two adjacent text chunks in the stream. -/
def noAdjChunks : List MTok → Bool
  | [] => true
  | t :: rest => !(isChunkTok t && headIsChunk rest) && noAdjChunks rest

/-- Collapsed-form invariant of a character list: every whitespace
character is a plain space and no two are adjacent; the flag states that
the position before the list counts as whitespace. -/
def wsCollapsedGo : Bool → List Char → Bool
  | _, [] => true
  | prevWs, c :: cs =>
    if isWsChar c then (c == ' ' && !prevWs) && wsCollapsedGo true cs
    else wsCollapsedGo false cs

/-- The space character is whitespace. -/
theorem isWs_space : isWsChar ' ' = true := rfl

/-- Whitespace collapse establishes the collapsed form. -/
theorem collapseGo_ok : ∀ (l : List Char) (b : Bool),
    wsCollapsedGo b (collapseGo b l) = true := by
  intro l
  induction l with
  | nil => intro b; rfl
  | cons c cs ih =>
    intro b
    cases hw : isWsChar c <;> cases b <;>
      simp [collapseGo, hw, wsCollapsedGo, isWs_space, ih true, ih false]

/-- Whitespace collapse is the identity on collapsed-form lists. -/
theorem collapseGo_id : ∀ (l : List Char) (b : Bool),
    wsCollapsedGo b l = true → collapseGo b l = l := by
  intro l
  induction l with
  | nil => intro b _; rfl
  | cons c cs ih =>
    intro b h
    cases hw : isWsChar c
    · simp only [wsCollapsedGo, hw, Bool.false_eq_true, if_false] at h
      simp [collapseGo, hw, ih false h]
    · simp only [wsCollapsedGo, hw, if_true] at h
      simp only [Bool.and_eq_true, beq_iff_eq, Bool.not_eq_true'] at h
      obtain ⟨⟨hc, hb⟩, hrec⟩ := h
      subst hc
      subst hb
      simp [collapseGo, hw, ih true hrec]

/-- Collapsing whitespace twice is collapsing once. -/
theorem collapseWs_idem (s : String) : collapseWs (collapseWs s) = collapseWs s := by
  unfold collapseWs
  exact congrArg String.mk (collapseGo_id _ false (collapseGo_ok s.data false))

/-- Comment removal leaves no comment token. -/
theorem dropRems_noRem (ts : List MTok) : noRemToks (dropRems ts) = true := by
  rw [noRemToks, List.all_eq_true]
  intro x hx
  simp only [dropRems, List.mem_filter] at hx
  exact hx.2

/-- Comment removal is the identity on comment-free streams. -/
theorem dropRems_id (ts : List MTok) (h : noRemToks ts = true) : dropRems ts = ts := by
  rw [dropRems, List.filter_eq_self]
  intro a ha
  exact List.all_eq_true.mp h a ha

/-- Chunk merging never introduces a comment token. -/
theorem mergeChunks_noRem : ∀ ts : List MTok,
    noRemToks ts = true → noRemToks (mergeChunks ts) = true
  | [] => fun _ => rfl
  | .chunk a :: rest => by
    intro h
    simp [noRemToks, isRem] at h
    have ih := mergeChunks_noRem rest (by simp [noRemToks]; exact h)
    cases hm : mergeChunks rest with
    | nil => simp [mergeChunks, hm, noRemToks, isRem]
    | cons hd tl =>
      rw [hm] at ih
      simp [noRemToks] at ih
      cases hd with
      | rem s2 => simp [isRem] at ih
      | chunk b => simp [mergeChunks, hm, noRemToks, isRem]; exact ih.2
      | tagOpen n a2 => simp [mergeChunks, hm, noRemToks, isRem]; exact ih.2
      | tagClose n => simp [mergeChunks, hm, noRemToks, isRem]; exact ih.2
  | .tagOpen n a :: rest => by
    intro h
    simp [noRemToks, isRem] at h
    have ih := mergeChunks_noRem rest (by simp [noRemToks]; exact h)
    simp [mergeChunks, noRemToks, isRem] at ih ⊢
    exact ih
  | .tagClose n :: rest => by
    intro h
    simp [noRemToks, isRem] at h
    have ih := mergeChunks_noRem rest (by simp [noRemToks]; exact h)
    simp [mergeChunks, noRemToks, isRem] at ih ⊢
    exact ih
  | .rem s :: rest => by
    intro h
    simp [noRemToks, isRem] at h

/-- Chunk merging leaves no two adjacent text chunks. -/
theorem mergeChunks_noAdj : ∀ ts : List MTok, noAdjChunks (mergeChunks ts) = true
  | [] => rfl
  | .chunk a :: rest => by
    have ih := mergeChunks_noAdj rest
    cases hm : mergeChunks rest with
    | nil => simp [mergeChunks, hm, noAdjChunks, isChunkTok, headIsChunk]
    | cons hd tl =>
      rw [hm] at ih
      cases hd with
      | chunk b =>
        simp [noAdjChunks, isChunkTok] at ih
        simp [mergeChunks, hm, noAdjChunks, isChunkTok, ih.1, ih.2]
      | tagOpen n a2 =>
        simp [mergeChunks, hm, noAdjChunks, isChunkTok, headIsChunk] at ih ⊢
        exact ih
      | tagClose n =>
        simp [mergeChunks, hm, noAdjChunks, isChunkTok, headIsChunk] at ih ⊢
        exact ih
      | rem s =>
        simp [mergeChunks, hm, noAdjChunks, isChunkTok, headIsChunk] at ih ⊢
        exact ih
  | .tagOpen n a :: rest => by
    have ih := mergeChunks_noAdj rest
    simp [mergeChunks, noAdjChunks, isChunkTok, ih]
  | .tagClose n :: rest => by
    have ih := mergeChunks_noAdj rest
    simp [mergeChunks, noAdjChunks, isChunkTok, ih]
  | .rem s :: rest => by
    have ih := mergeChunks_noAdj rest
    simp [mergeChunks, noAdjChunks, isChunkTok, ih]

/-- A chunk head followed by a chunk-free merge result stays in place. -/
theorem mergeChunks_cons_chunk_eq (a : String) (rest : List MTok)
    (h : headIsChunk (mergeChunks rest) = false) :
    mergeChunks (.chunk a :: rest) = .chunk a :: mergeChunks rest := by
  cases hm : mergeChunks rest with
  | nil => simp [mergeChunks, hm]
  | cons hd tl =>
    rw [hm] at h
    cases hd with
    | chunk b => simp [headIsChunk] at h
    | tagOpen n a2 => simp [mergeChunks, hm]
    | tagClose n => simp [mergeChunks, hm]
    | rem s => simp [mergeChunks, hm]

/-- Chunk merging is the identity on streams without adjacent chunks. -/
theorem mergeChunks_id : ∀ ts : List MTok, noAdjChunks ts = true → mergeChunks ts = ts
  | [] => fun _ => rfl
  | .chunk a :: rest => by
    intro h
    have h1 : headIsChunk rest = false := by
      cases rest with
      | nil => rfl
      | cons hd tl =>
        cases hd <;> simp [noAdjChunks, isChunkTok, headIsChunk] at h ⊢
    have h2 : noAdjChunks rest = true := by
      simpa [noAdjChunks, isChunkTok, h1] using h
    have ih := mergeChunks_id rest h2
    rw [mergeChunks_cons_chunk_eq a rest (by rw [ih]; exact h1), ih]
  | .tagOpen n a :: rest => by
    intro h
    have h2 : noAdjChunks rest = true := by
      simpa [noAdjChunks, isChunkTok] using h
    simp [mergeChunks, mergeChunks_id rest h2]
  | .tagClose n :: rest => by
    intro h
    have h2 : noAdjChunks rest = true := by
      simpa [noAdjChunks, isChunkTok] using h
    simp [mergeChunks, mergeChunks_id rest h2]
  | .rem s :: rest => by
    intro h
    have h2 : noAdjChunks rest = true := by
      simpa [noAdjChunks, isChunkTok] using h
    simp [mergeChunks, mergeChunks_id rest h2]

/-- Whitespace collapse keeps the head-constructor shape. -/
theorem collapseToks_headIsChunk (d : Nat) (ts : List MTok) :
    headIsChunk (collapseToks d ts) = headIsChunk ts := by
  cases ts with
  | nil => rfl
  | cons t rest => cases t <;> rfl

/-- Attribute reduction keeps the head-constructor shape. -/
theorem reduceToks_headIsChunk (ts : List MTok) :
    headIsChunk (reduceToks ts) = headIsChunk ts := by
  cases ts with
  | nil => rfl
  | cons t rest => cases t <;> rfl

/-- Whitespace collapse keeps comment-freedom. -/
theorem collapseToks_noRem : ∀ (ts : List MTok) (d : Nat),
    noRemToks ts = true → noRemToks (collapseToks d ts) = true := by
  intro ts
  induction ts with
  | nil => intro d _; rfl
  | cons t rest ih =>
    intro d h
    simp only [noRemToks, List.all_cons, Bool.and_eq_true] at h
    obtain ⟨h1, h2⟩ := h
    cases t <;>
      simp only [collapseToks, noRemToks, List.all_cons, Bool.and_eq_true] <;>
      exact ⟨h1, ih _ h2⟩

/-- Attribute reduction keeps comment-freedom. -/
theorem reduceToks_noRem : ∀ ts : List MTok,
    noRemToks ts = true → noRemToks (reduceToks ts) = true := by
  intro ts
  induction ts with
  | nil => intro _; rfl
  | cons t rest ih =>
    intro h
    simp only [noRemToks, List.all_cons, Bool.and_eq_true] at h
    obtain ⟨h1, h2⟩ := h
    cases t <;>
      simp only [reduceToks, noRemToks, List.all_cons, Bool.and_eq_true] <;>
      exact ⟨h1, ih h2⟩

/-- Whitespace collapse keeps the no-adjacent-chunks shape. -/
theorem collapseToks_noAdj : ∀ (ts : List MTok) (d : Nat),
    noAdjChunks ts = true → noAdjChunks (collapseToks d ts) = true := by
  intro ts
  induction ts with
  | nil => intro d _; rfl
  | cons t rest ih =>
    intro d h
    simp only [noAdjChunks, Bool.and_eq_true] at h
    cases t <;>
      simp [collapseToks, noAdjChunks, isChunkTok, collapseToks_headIsChunk,
        ih _ h.2] <;>
      simpa [isChunkTok] using h.1

/-- Attribute reduction keeps the no-adjacent-chunks shape. -/
theorem reduceToks_noAdj : ∀ ts : List MTok,
    noAdjChunks ts = true → noAdjChunks (reduceToks ts) = true := by
  intro ts
  induction ts with
  | nil => intro _; rfl
  | cons t rest ih =>
    intro h
    simp only [noAdjChunks, Bool.and_eq_true] at h
    cases t <;>
      simp [reduceToks, noAdjChunks, isChunkTok, reduceToks_headIsChunk, ih h.2] <;>
      simpa [isChunkTok] using h.1

/-- Whitespace collapse is idempotent at every pre depth. -/
theorem collapseToks_idem : ∀ (ts : List MTok) (d : Nat),
    collapseToks d (collapseToks d ts) = collapseToks d ts := by
  intro ts
  induction ts with
  | nil => intro d; rfl
  | cons t rest ih =>
    intro d
    cases t with
    | chunk s =>
      cases hd : (d == 0) <;> simp [collapseToks, hd, collapseWs_idem, ih d]
    | tagOpen n a => simp [collapseToks, ih]
    | tagClose n => simp [collapseToks, ih]
    | rem s => simp [collapseToks, ih d]

/-- Boolean-attribute reduction is idempotent on one attribute. -/
theorem reduceBoolAttr_idem (p : String × Option String) :
    reduceBoolAttr (reduceBoolAttr p) = reduceBoolAttr p := by
  rcases p with ⟨k, v⟩
  cases v with
  | none => rfl
  | some x => cases hx : (x == k) <;> simp [reduceBoolAttr, hx]

/-- Boolean-attribute reduction is idempotent on an attribute list. -/
theorem reduceAttrs_idem : ∀ a : List (String × Option String),
    (a.map reduceBoolAttr).map reduceBoolAttr = a.map reduceBoolAttr := by
  intro a
  induction a with
  | nil => rfl
  | cons p ps ih => simp [ih, reduceBoolAttr_idem]

/-- Attribute reduction is idempotent on the stream. -/
theorem reduceToks_idem : ∀ ts : List MTok,
    reduceToks (reduceToks ts) = reduceToks ts := by
  intro ts
  induction ts with
  | nil => rfl
  | cons t rest ih =>
    cases t with
    | tagOpen n a => simp only [reduceToks, reduceAttrs_idem, ih]
    | tagClose n => simp only [reduceToks, ih]
    | chunk s => simp only [reduceToks, ih]
    | rem s => simp only [reduceToks, ih]

/-- Whitespace collapse commutes with attribute reduction. -/
theorem collapseToks_reduce : ∀ (ts : List MTok) (d : Nat),
    collapseToks d (reduceToks ts) = reduceToks (collapseToks d ts) := by
  intro ts
  induction ts with
  | nil => intro d; rfl
  | cons t rest ih => intro d; cases t <;> simp [collapseToks, reduceToks, ih]

/-- C9: the minify-only transform is idempotent on every token stream
(spec-modelled: htmlmin is third-party code outside this repository). -/
theorem c9_minify_idempotent : ∀ ts : List MTok,
    minifyToks (minifyToks ts) = minifyToks ts := by
  intro ts
  unfold minifyToks
  have hY : noRemToks (mergeChunks (dropRems ts)) = true :=
    mergeChunks_noRem _ (dropRems_noRem ts)
  have hnoRem : noRemToks (reduceToks (collapseToks 0 (mergeChunks (dropRems ts)))) = true :=
    reduceToks_noRem _ (collapseToks_noRem _ _ hY)
  have hnoAdj : noAdjChunks (reduceToks (collapseToks 0 (mergeChunks (dropRems ts)))) = true :=
    reduceToks_noAdj _ (collapseToks_noAdj _ _ (mergeChunks_noAdj _))
  rw [dropRems_id _ hnoRem, mergeChunks_id _ hnoAdj, collapseToks_reduce,
    collapseToks_idem, reduceToks_idem]

/-- Code points below 128 encode in one byte. -/
theorem utf8LenCp_one (c : Nat) (h : c < 128) : utf8LenCp c = 1 := by
  unfold utf8LenCp
  rw [if_pos h]

/-- Code points in [128, 2048) encode in two bytes. -/
theorem utf8LenCp_two (c : Nat) (h1 : 128 ≤ c) (h2 : c < 2048) : utf8LenCp c = 2 := by
  unfold utf8LenCp
  rw [if_neg (by omega), if_pos h2]

/-- Code points in [2048, 65536) encode in three bytes. -/
theorem utf8LenCp_three (c : Nat) (h1 : 2048 ≤ c) (h2 : c < 65536) : utf8LenCp c = 3 := by
  unfold utf8LenCp
  rw [if_neg (by omega), if_neg (by omega), if_pos h2]

/-- Code points at or above 65536 encode in four bytes. -/
theorem utf8LenCp_four (c : Nat) (h1 : 65536 ≤ c) : utf8LenCp c = 4 := by
  unfold utf8LenCp
  rw [if_neg (by omega), if_neg (by omega), if_neg (by omega)]

/-- The code point of an accepted three-byte sequence lies in the
three-byte range. -/
theorem cp3_range (b0 b1 b2 : Nat) (h0 : 224 ≤ b0) (h0b : b0 ≤ 239)
    (hl : lead3Ok b0 b1 = true) (hc : contByte b2 = true) :
    2048 ≤ (b0 - 224) * 4096 + (b1 - 128) * 64 + (b2 - 128) ∧
      (b0 - 224) * 4096 + (b1 - 128) * 64 + (b2 - 128) < 65536 := by
  simp only [contByte, Bool.and_eq_true, decide_eq_true_eq] at hc
  by_cases hb : b0 = 224
  · subst hb
    simp only [lead3Ok, beq_self_eq_true, if_true, Bool.and_eq_true,
      decide_eq_true_eq] at hl
    omega
  · by_cases hb2 : b0 = 237
    · subst hb2
      simp only [lead3Ok] at hl
      norm_num at hl
      omega
    · have hbeq : (b0 == 224) = false := by simp [hb]
      have hbeq2 : (b0 == 237) = false := by simp [hb2]
      simp only [lead3Ok, hbeq, hbeq2, Bool.false_eq_true, if_false, contByte,
        Bool.and_eq_true, decide_eq_true_eq] at hl
      omega

/-- The code point of an accepted four-byte sequence lies at or above
65536. -/
theorem cp4_range (b0 b1 b2 b3 : Nat) (h0 : 240 ≤ b0) (h0b : b0 ≤ 244)
    (hl : lead4Ok b0 b1 = true) :
    65536 ≤ (b0 - 240) * 262144 + (b1 - 128) * 4096 + (b2 - 128) * 64 + (b3 - 128) := by
  by_cases hb : b0 = 240
  · subst hb
    simp only [lead4Ok, beq_self_eq_true, if_true, Bool.and_eq_true,
      decide_eq_true_eq] at hl
    omega
  · by_cases hb2 : b0 = 244
    · subst hb2
      simp only [lead4Ok] at hl
      norm_num at hl
      omega
    · have hbeq : (b0 == 240) = false := by simp [hb]
      have hbeq2 : (b0 == 244) = false := by simp [hb2]
      simp only [lead4Ok, hbeq, hbeq2, Bool.false_eq_true, if_false, contByte,
        Bool.and_eq_true, decide_eq_true_eq] at hl
      omega

/-- Decoding the empty byte list yields nothing at any fuel. -/
theorem decodeGo_nil : ∀ f : Nat, decodeGo f [] = ([], 0) := by
  intro f
  cases f <;> rfl

/-- Decoding invariant: the UTF-8 re-encoded length of the decoded code
points plus the dropped byte count equals the input byte count, for
enough fuel. -/
theorem decodeGo_inv : ∀ (f : Nat) (bs : List Nat), bs.length ≤ f →
    utf8LenSum (decodeGo f bs).1 + (decodeGo f bs).2 = bs.length := by
  intro f
  induction f with
  | zero =>
    intro bs h
    cases bs with
    | nil => rfl
    | cons b0 rest => simp at h
  | succ f ih =>
    intro bs h
    cases bs with
    | nil => rfl
    | cons b0 rest =>
      simp only [List.length_cons] at h
      have hr : rest.length ≤ f := by omega
      by_cases h1 : b0 < 128
      · have ihr := ih rest hr
        simp only [utf8LenSum] at ihr
        simp only [decodeGo, if_pos h1, utf8LenSum, List.map_cons, List.sum_cons,
          List.length_cons, utf8LenCp_one b0 h1]
        omega
      · by_cases h2 : 194 ≤ b0 ∧ b0 ≤ 223
        · have hb2 : (194 ≤ b0 && b0 ≤ 223) = true := by
            simp only [Bool.and_eq_true, decide_eq_true_eq]
            exact h2
          cases rest with
          | nil => simp [decodeGo, h1, hb2, utf8LenSum]
          | cons b1 rest2 =>
            simp only [List.length_cons] at hr
            have hr2 : rest2.length ≤ f := by omega
            by_cases h3 : contByte b1 = true
            · have hc : 128 ≤ b1 ∧ b1 ≤ 191 := by
                simpa [contByte, Bool.and_eq_true, decide_eq_true_eq] using h3
              have ihr := ih rest2 hr2
              simp only [utf8LenSum] at ihr
              have hcp : utf8LenCp ((b0 - 192) * 64 + (b1 - 128)) = 2 :=
                utf8LenCp_two _ (by omega) (by omega)
              simp only [decodeGo, if_neg h1, hb2, if_true, h3, utf8LenSum,
                List.map_cons, List.sum_cons, List.length_cons, hcp]
              omega
            · have hb3 : contByte b1 = false := by
                cases hbb : contByte b1 with
                | false => rfl
                | true => exact absurd hbb h3
              have ihr := ih (b1 :: rest2) (by simp; omega)
              simp only [utf8LenSum] at ihr
              simp only [decodeGo, if_neg h1, hb2, if_true, hb3, Bool.false_eq_true,
                if_false, utf8LenSum, List.length_cons]
              simp only [List.length_cons] at ihr
              omega
        · have hb2 : (194 ≤ b0 && b0 ≤ 223) = false := by
            cases hbb : (194 ≤ b0 && b0 ≤ 223 : Bool) with
            | false => rfl
            | true =>
              exact absurd (by simpa [Bool.and_eq_true, decide_eq_true_eq] using hbb) h2
          by_cases h4 : 224 ≤ b0 ∧ b0 ≤ 239
          · have hb4 : (224 ≤ b0 && b0 ≤ 239) = true := by
              simp only [Bool.and_eq_true, decide_eq_true_eq]
              exact h4
            cases rest with
            | nil => simp [decodeGo, decodeGo_nil, h1, hb2, hb4, utf8LenSum]
            | cons b1 rest2 =>
              simp only [List.length_cons] at hr
              cases rest2 with
              | nil =>
                have ihr := ih [b1] (by simp; omega)
                simp only [utf8LenSum] at ihr
                simp only [decodeGo, if_neg h1, hb2, Bool.false_eq_true, if_false,
                  hb4, if_true, utf8LenSum, List.length_cons] at ihr ⊢
                omega
              | cons b2 rest3 =>
                have hr3 : rest3.length ≤ f := by simp at hr; omega
                by_cases h5 : (lead3Ok b0 b1 && contByte b2) = true
                · have h5a : lead3Ok b0 b1 = true := by
                    simp only [Bool.and_eq_true] at h5
                    exact h5.1
                  have h5b : contByte b2 = true := by
                    simp only [Bool.and_eq_true] at h5
                    exact h5.2
                  have hrange := cp3_range b0 b1 b2 h4.1 h4.2 h5a h5b
                  have ihr := ih rest3 hr3
                  simp only [utf8LenSum] at ihr
                  have hcp : utf8LenCp ((b0 - 224) * 4096 + (b1 - 128) * 64 + (b2 - 128)) = 3 :=
                    utf8LenCp_three _ hrange.1 hrange.2
                  simp only [decodeGo, if_neg h1, hb2, Bool.false_eq_true, if_false,
                    hb4, if_true, h5, utf8LenSum, List.map_cons, List.sum_cons,
                    List.length_cons, hcp]
                  omega
                · have hb5 : (lead3Ok b0 b1 && contByte b2) = false := by
                    cases hbb : (lead3Ok b0 b1 && contByte b2) with
                    | false => rfl
                    | true => exact absurd hbb h5
                  have ihr := ih (b1 :: b2 :: rest3) (by simp; simp at hr; omega)
                  simp only [utf8LenSum, List.length_cons] at ihr
                  simp only [decodeGo, if_neg h1, hb2, Bool.false_eq_true, if_false,
                    hb4, if_true, hb5, utf8LenSum, List.length_cons]
                  omega
          · have hb4 : (224 ≤ b0 && b0 ≤ 239) = false := by
              cases hbb : (224 ≤ b0 && b0 ≤ 239 : Bool) with
              | false => rfl
              | true =>
                exact absurd (by simpa [Bool.and_eq_true, decide_eq_true_eq] using hbb) h4
            by_cases h6 : 240 ≤ b0 ∧ b0 ≤ 244
            · have hb6 : (240 ≤ b0 && b0 ≤ 244) = true := by
                simp only [Bool.and_eq_true, decide_eq_true_eq]
                exact h6
              cases rest with
              | nil => simp [decodeGo, decodeGo_nil, h1, hb2, hb4, hb6, utf8LenSum]
              | cons b1 rest2 =>
                simp only [List.length_cons] at hr
                cases rest2 with
                | nil =>
                  have ihr := ih [b1] (by simp; omega)
                  simp only [utf8LenSum] at ihr
                  simp only [decodeGo, if_neg h1, hb2, Bool.false_eq_true, if_false,
                    hb4, hb6, if_true, utf8LenSum, List.length_cons] at ihr ⊢
                  omega
                | cons b2 rest3 =>
                  cases rest3 with
                  | nil =>
                    have ihr := ih [b1, b2] (by simp; simp at hr; omega)
                    simp only [utf8LenSum, List.length_cons] at ihr
                    simp only [decodeGo, if_neg h1, hb2, Bool.false_eq_true, if_false,
                      hb4, hb6, if_true, utf8LenSum, List.length_cons] at ihr ⊢
                    omega
                  | cons b3 rest4 =>
                    have hr4 : rest4.length ≤ f := by simp at hr; omega
                    by_cases h7 : (lead4Ok b0 b1 && contByte b2 && contByte b3) = true
                    · have h7a : lead4Ok b0 b1 = true := by
                        simp only [Bool.and_eq_true] at h7
                        exact h7.1.1
                      have hrange := cp4_range b0 b1 b2 b3 h6.1 h6.2 h7a
                      have ihr := ih rest4 hr4
                      simp only [utf8LenSum] at ihr
                      have hcp : utf8LenCp ((b0 - 240) * 262144 + (b1 - 128) * 4096 +
                          (b2 - 128) * 64 + (b3 - 128)) = 4 :=
                        utf8LenCp_four _ hrange
                      simp only [decodeGo, if_neg h1, hb2, Bool.false_eq_true, if_false,
                        hb4, hb6, if_true, h7, utf8LenSum, List.map_cons, List.sum_cons,
                        List.length_cons, hcp]
                      omega
                    · have hb7 : (lead4Ok b0 b1 && contByte b2 && contByte b3) = false := by
                        cases hbb : (lead4Ok b0 b1 && contByte b2 && contByte b3) with
                        | false => rfl
                        | true => exact absurd hbb h7
                      have ihr := ih (b1 :: b2 :: b3 :: rest4) (by simp; simp at hr; omega)
                      simp only [utf8LenSum, List.length_cons] at ihr
                      simp only [decodeGo, if_neg h1, hb2, Bool.false_eq_true, if_false,
                        hb4, hb6, if_true, hb7, utf8LenSum, List.length_cons]
                      omega
            · have hb6 : (240 ≤ b0 && b0 ≤ 244) = false := by
                cases hbb : (240 ≤ b0 && b0 ≤ 244 : Bool) with
                | false => rfl
                | true =>
                  exact absurd (by simpa [Bool.and_eq_true, decide_eq_true_eq] using hbb) h6
              have ihr := ih rest hr
              simp only [utf8LenSum] at ihr
              simp only [decodeGo, if_neg h1, hb2, hb4, hb6, Bool.false_eq_true,
                if_false, utf8LenSum, List.length_cons]
              omega

/-- C10: the reported File size is the UTF-8 byte length of the decoded
text (input length minus the dropped undecodable bytes), and whenever
bytes were dropped, the reported savings are strictly less than the true
on-disk reduction for every output size. -/
theorem c10_reported_size : ∀ (bs : List Nat) (outSize : Nat),
    reportedFileSize bs + (decodeIgnore bs).2 = bs.length ∧
      (0 < (decodeIgnore bs).2 →
        reportedSavings bs outSize < diskSavings bs outSize) := by
  intro bs outSize
  have h := decodeGo_inv bs.length bs (le_refl _)
  have h2 : reportedFileSize bs + (decodeIgnore bs).2 = bs.length := h
  refine ⟨h2, ?_⟩
  intro hd
  unfold reportedSavings diskSavings
  omega

/-- Witness for C10: the single undecodable byte 255 is dropped, the
reported size is zero, and the reported savings understate the on-disk
reduction. -/
theorem c10_reported_size_witness :
    reportedFileSize [255] + (decodeIgnore [255]).2 = 1 ∧
      reportedSavings [255] 0 < diskSavings [255] 0 :=
  ⟨(c10_reported_size [255] 0).1, (c10_reported_size [255] 0).2 (by decide)⟩

end MinimizeHtml
